import Mathlib

/-
  Verification of the dataclass_argparser configuration resolver
  (src/dataclass_argparser/parser.py) against its specification.

  The embedding models Python values, the fixed type-kind set, and the
  resolver / validator / assembler pipeline of `DataclassArgParser`.
  Machine-level Python concerns (object identity, hashing) are not needed
  by the verified properties; numbers are embedded as Int / Rat.
-/

namespace DCAP

/-- Python runtime values, as far as the parser manipulates them.
`missing` embeds the `dataclasses.MISSING` sentinel, which the source
threads through `_resolve_field_value` as an ordinary value.
`inst cls fields` is a dataclass instance with its fields in declaration
order. -/
inductive PyVal where
  | int (n : Int)
  | float (q : Rat)
  | bool (b : Bool)
  | str (s : String)
  | none
  | list (xs : List PyVal)
  | tuple (xs : List PyVal)
  | dict (entries : List (PyVal × PyVal))
  | inst (cls : String) (fields : List (String × PyVal))
  | missing
deriving Repr

/-- The four scalar element classes (`int`, `float`, `str`, `bool`) that the
tuple / list / dict factories of the source dispatch on. -/
inductive Scalar where
  | int | float | str | bool
deriving Repr, DecidableEq

/-- `__name__` of a scalar class, as used in source error messages. -/
def Scalar.name : Scalar → String
  | .int => "int"
  | .float => "float"
  | .str => "str"
  | .bool => "bool"

/-- The declared type of a dataclass field.  Nested dataclasses are referred
to by class name and resolved through an environment (the Python class
table).  `listRec` / `tupleRec` are `list[D]` / `tuple[D, ...]` with
dataclass element classes, which the source supports from file data only.
`dictD` is `dict[K, dict[VK, VV]]` and `listL` is `list[list[E]]` — the
nested-compound element annotations (as in the repository\x27s own test
schemas, e.g. `dict[str, dict[str, str]]`), whose element values the
decode factories convert through the generic constructor-call fallback
rather than a strict per-class branch. -/
inductive TypeKind where
  | scalar (s : Scalar)
  | literal (choices : List PyVal)
  | opt (inner : TypeKind)
  | list (elem : Scalar)
  | tuple (elems : List Scalar)
  | dict (key value : Scalar)
  | record (cls : String)
  | listRec (cls : String)
  | tupleRec (clss : List String)
  | dictD (key vkey vval : Scalar)
  | listL (inner : Scalar)
deriving Repr

/-- A dataclass field: name, declared type, and its default.
`dflt = .missing` means the field is required (no default and no factory).
Default factories are invoked to a value at each use in the source; they are
embedded by the value they produce (factories in this code base are pure). -/
structure FieldDesc where
  fname : String
  kind : TypeKind
  dflt : PyVal
deriving Repr

/-- The Python class table: dataclass name to field list, in declaration
order. -/
def Env : Type := List (String × List FieldDesc)

/-- `dataclasses.fields(cls)` through the class table. -/
def envFields (env : Env) (cls : String) : Option (List FieldDesc) :=
  List.lookup cls env

/-- Python exceptions raised by the parser.  `sysExit` is the `SystemExit`
raised by `argparse.ArgumentParser.error`; it is a `BaseException`, not an
`Exception`. -/
inductive PyErr where
  | argType (msg : String)
  | typeErr (msg : String)
  | valueErr (msg : String)
  | sysExit (msg : String)
deriving Repr, DecidableEq

/-- Whether `except Exception` catches the error: it catches everything but
`SystemExit`. -/
def PyErr.isException : PyErr → Bool
  | .sysExit _ => false
  | _ => true

def PyErr.msg : PyErr → String
  | .argType m => m
  | .typeErr m => m
  | .valueErr m => m
  | .sysExit m => m

/-! String helpers mirroring the Python string operations used by the
source.  They are written over `List Char` so that proofs can reuse list
lemmas. -/

/-- ASCII whitespace, as stripped by Python `str.strip()` on the inputs this
parser sees. -/
def isWS (c : Char) : Bool :=
  c == ' ' || c == '\t' || c == '\n' || c == '\r'

/-- Python `str.strip()` (ASCII whitespace). -/
def pyStrip (s : String) : String :=
  ⟨((s.data.dropWhile isWS).reverse.dropWhile isWS).reverse⟩

/-- Split a character list at every occurrence of `sep`. -/
def splitChars (sep : Char) : List Char → List (List Char)
  | [] => [[]]
  | c :: cs =>
    let rest := splitChars sep cs
    if c == sep then [] :: rest
    else match rest with
      | [] => [[c]]
      | r :: rs => (c :: r) :: rs

/-- Python `s.split(sep)` for a one-character separator. -/
def pySplit (s : String) (sep : Char) : List String :=
  (splitChars sep s.data).map (fun cs => ⟨cs⟩)

/-- Python `s.startswith(p)`. -/
def pyStartsWith (s p : String) : Bool :=
  p.data.isPrefixOf s.data

/-- Python `s.endswith(p)`. -/
def pyEndsWith (s p : String) : Bool :=
  p.data.reverse.isPrefixOf s.data.reverse

/-- Python `s[1:-1]`. -/
def dropEnds (s : String) : String :=
  ⟨(s.data.drop 1).dropLast⟩

/-- Python `"sep".join`-free shorthand: `", ".join(names)`. -/
def joinComma : List String → String
  | [] => ""
  | [x] => x
  | x :: xs => x ++ ", " ++ joinComma xs

def listInfix (needle : List Char) : List Char → Bool
  | [] => needle.isEmpty
  | c :: rest => needle.isPrefixOf (c :: rest) || listInfix needle rest

/-- Python `needle in hay` for strings (substring containment). -/
def strContains (hay needle : String) : Bool :=
  listInfix needle.data hay.data

/-- Python `x is dataclasses.MISSING`. -/
def PyVal.isMissing : PyVal → Bool
  | .missing => true
  | _ => false

/-- Python `x is None`. -/
def PyVal.isNone : PyVal → Bool
  | .none => true
  | _ => false

/-- Python `==` at the comparison sites of this parser.  The parser
compares values only where Python requires hashable keys or literal
choices — mapping keys and `Literal` alternatives — which are scalars
(`int` / `float` / `bool` / `str`) or `None`.  Numbers compare across
`int` / `float` / `bool` (`True == 1`); a container never equals a scalar,
and container-against-container comparisons do not occur at these sites. -/
def pyEq : PyVal → PyVal → Bool
  | .int n, .int m => n == m
  | .int n, .float q => (n : Rat) == q
  | .int n, .bool b => n == (if b then 1 else 0)
  | .float q, .int m => q == (m : Rat)
  | .float q, .float r => q == r
  | .float q, .bool b => q == (if b then (1 : Rat) else 0)
  | .bool b, .int m => (if b then (1 : Int) else 0) == m
  | .bool b, .float r => (if b then (1 : Rat) else 0) == r
  | .bool b, .bool c => b == c
  | .str s, .str t => s == t
  | .none, .none => true
  | _, _ => false

/-- `type(x).__name__`, as used in source error messages. -/
def pyTypeName : PyVal → String
  | .int _ => "int"
  | .float _ => "float"
  | .bool _ => "bool"
  | .str _ => "str"
  | .none => "NoneType"
  | .list _ => "list"
  | .tuple _ => "tuple"
  | .dict _ => "dict"
  | .inst c _ => c
  | .missing => "_MISSING_TYPE"

/-- Decimal rendering of a rational that came from a float literal: used
only inside error messages. -/
def ratRepr (q : Rat) : String :=
  if q.den = 1 then toString q.num ++ ".0"
  else toString q.num ++ "/" ++ toString q.den

/-- Python `repr(x)` for the values that reach error messages. -/
def pyRepr : PyVal → String
  | .int n => toString n
  | .float q => ratRepr q
  | .bool b => if b then "True" else "False"
  | .str s => "\x27" ++ s ++ "\x27"
  | .none => "None"
  | .list _ => "[...]"
  | .tuple _ => "(...)"
  | .dict _ => "\x7b...\x7d"
  | .inst c _ => c ++ "(...)"
  | .missing => "MISSING"

/-! Numeric parsing.  These model the Python builtins `int(str)` and
`float(str)` on the decimal inputs this parser receives (Python's
underscore separators, unicode digits and `inf` / `nan` are outside the
modelled grammar). -/

def digitsToNat : List Char → Option Nat
  | [] => Option.none
  | cs => cs.foldl (fun acc c =>
      match acc with
      | Option.none => Option.none
      | some n => if c.isDigit then some (n * 10 + (c.toNat - 48)) else Option.none)
      (some 0)

/-- Sign handling shared by the numeric grammars. -/
def splitSign : List Char → Bool × List Char
  | '-' :: cs => (true, cs)
  | '+' :: cs => (false, cs)
  | cs => (false, cs)

/-- Python `int(s)`: optional surrounding whitespace, optional sign,
decimal digits. -/
def pyIntOfStr (s : String) : Option Int :=
  let (neg, cs) := splitSign (pyStrip s).data
  match digitsToNat cs with
  | some n => some (if neg then -(n : Int) else (n : Int))
  | Option.none => Option.none

/-- Parse `digits[.digits]` into a rational, if well formed. -/
def mantissaToRat : List Char → Option Rat
  | cs =>
    let intPart := cs.takeWhile (fun c => c != '.')
    let rest := cs.dropWhile (fun c => c != '.')
    match rest with
    | [] =>
      match digitsToNat intPart with
      | some n => some (n : Rat)
      | Option.none => Option.none
    | _ :: fracPart =>
      if intPart.isEmpty && fracPart.isEmpty then Option.none
      else if !(intPart.all Char.isDigit) || !(fracPart.all Char.isDigit) then Option.none
      else
        match digitsToNat (intPart ++ fracPart), fracPart.length with
        | some n, k => some ((n : Rat) / ((10 : Rat) ^ k))
        | Option.none, _ =>
          if intPart.isEmpty && fracPart.isEmpty then Option.none
          else some 0

/-- Python `float(s)`: optional sign, decimal mantissa, optional decimal
exponent. -/
def pyFloatOfStr (s : String) : Option Rat :=
  let (neg, cs) := splitSign (pyStrip s).data
  let mant := cs.takeWhile (fun c => c != 'e' && c != 'E')
  let rest := cs.dropWhile (fun c => c != 'e' && c != 'E')
  let scaled : Option Rat :=
    match rest with
    | [] => mantissaToRat mant
    | _ :: expPart =>
      let (eneg, ecs) := splitSign expPart
      match mantissaToRat mant, digitsToNat ecs with
      | some m, some e =>
        some (if eneg then m / ((10 : Rat) ^ e) else m * ((10 : Rat) ^ e))
      | _, _ => Option.none
  match scaled with
  | some q => some (if neg then -q else q)
  | Option.none => Option.none

/-- Model of `ast.literal_eval` on the token fragments this parser feeds
it: the literals `True` / `False` / `None`, signed integer and float
numerals, and quoted strings; everything else fails (the callers treat
failure as "not a literal"). -/
def literalEval (s : String) : Option PyVal :=
  let t := pyStrip s
  if t == "True" then some (.bool true)
  else if t == "False" then some (.bool false)
  else if t == "None" then some PyVal.none
  else
    let (neg, cs) := splitSign t.data
    match digitsToNat cs with
    | some n => some (.int (if neg then -(n : Int) else (n : Int)))
    | Option.none =>
      match pyFloatOfStr t with
      | some q => some (.float q)
      | Option.none =>
        if t.length ≥ 2 && pyStartsWith t "\x27" && pyEndsWith t "\x27" then
          some (.str (dropEnds t))
        else Option.none

/-- Calling a scalar class on a value: `int(x)`, `float(x)`, `bool(x)`,
`str(x)`.  `int` truncates floats toward zero; `bool` is Python
truthiness.  `str` is only ever applied to the raw string in the source
flow, so other arguments are out of the modelled domain. -/
def scalarCall (typ : Scalar) (v : PyVal) : Except Unit PyVal :=
  match typ, v with
  | .int, .int n => .ok (.int n)
  | .int, .float q => .ok (.int (if q ≥ 0 then q.floor else q.ceil))
  | .int, .bool b => .ok (.int (if b then 1 else 0))
  | .int, .str s =>
    match pyIntOfStr s with
    | some n => .ok (.int n)
    | Option.none => .error ()
  | .int, _ => .error ()
  | .float, .int n => .ok (.float (n : Rat))
  | .float, .float q => .ok (.float q)
  | .float, .bool b => .ok (.float (if b then 1 else 0))
  | .float, .str s =>
    match pyFloatOfStr s with
    | some q => .ok (.float q)
    | Option.none => .error ()
  | .float, _ => .error ()
  | .bool, .int n => .ok (.bool (n != 0))
  | .bool, .float q => .ok (.bool (q != 0))
  | .bool, .bool b => .ok (.bool b)
  | .bool, .str s => .ok (.bool (s != ""))
  | .bool, .none => .ok (.bool false)
  | .bool, .list xs => .ok (.bool (!xs.isEmpty))
  | .bool, .tuple xs => .ok (.bool (!xs.isEmpty))
  | .bool, .dict es => .ok (.bool (!es.isEmpty))
  | .bool, _ => .ok (.bool true)
  | .str, .str s => .ok (.str s)
  | .str, _ => .error ()

/-! The Decoder: faithful embeddings of `_strict_bool` and the closures
returned by `_tuple_type_factory`, `_list_type_factory`,
`_dict_type_factory`. -/

/-- `_strict_bool` (parser.py:43): accepts exactly
`True, true, 1, False, false, 0`. -/
def strict_bool (value : String) : Except PyErr Bool :=
  if value == "True" || value == "true" || value == "1" then .ok true
  else if value == "False" || value == "false" || value == "0" then .ok false
  else .error (.argType ("Invalid boolean value: \x27" ++ value ++
    "\x27. Must be one of: True, true, False, false, 1, 0"))

/-- One element conversion in `parse_tuple` / `parse_list`:
`ast.literal_eval(item) if typ in (int, float, bool) else item`, then
`typ(value)`, with both failure modes collapsed into the same message. -/
def convertItem (typ : Scalar) (item : String) : Except PyErr PyVal :=
  let failMsg := "Could not convert \x27" ++ item ++ "\x27 to " ++ typ.name
  let lit : Except Unit PyVal :=
    match typ with
    | .str => .ok (.str item)
    | _ =>
      match literalEval item with
      | some v => .ok v
      | Option.none => .error ()
  match lit with
  | .error _ => .error (.argType failMsg)
  | .ok v =>
    match scalarCall typ v with
    | .ok w => .ok w
    | .error _ => .error (.argType failMsg)

/-- `[item.strip() for item in s.split(",") if item.strip()]`. -/
def commaItems (s : String) : List String :=
  ((pySplit s ',').map pyStrip).filter (fun t => t ≠ "")

/-- Positional conversion of the split segments against the element
classes. -/
def convertItems : List (String × Scalar) → Except PyErr (List PyVal)
  | [] => .ok []
  | (item, typ) :: rest =>
    match convertItem typ item with
    | .error e => .error e
    | .ok v =>
      match convertItems rest with
      | .error e => .error e
      | .ok vs => .ok (v :: vs)

/-- `s[1:-1]` when wrapped in the given bracket pair. -/
def stripWrap (l r : String) (s0 : String) : String :=
  if pyStartsWith s0 l && pyEndsWith s0 r then dropEnds s0 else s0

/-- `parse_tuple` (parser.py:239): optional `(...)` wrapper, comma split,
exact arity, positional element conversion; every failure is re-wrapped
as `Invalid tuple value: ...`. -/
def parse_tuple (elems : List Scalar) (s0 : String) : Except PyErr PyVal :=
  let s := stripWrap "(" ")" s0
  let items := commaItems s
  let core : Except PyErr PyVal :=
    if items.length ≠ elems.length then
      .error (.argType ("Expected " ++ toString elems.length ++ " values, got " ++
        toString items.length))
    else
      match convertItems (items.zip elems) with
      | .error e => .error e
      | .ok vals => .ok (.tuple vals)
  match core with
  | .ok v => .ok v
  | .error e => .error (.argType ("Invalid tuple value: " ++ s ++ " (" ++ e.msg ++ ")"))

/-- `parse_list` (parser.py:283): optional `[...]` wrapper, comma split,
element conversion, no arity constraint. -/
def parse_list (elem : Scalar) (s0 : String) : Except PyErr PyVal :=
  let s := stripWrap "[" "]" s0
  let core : Except PyErr PyVal :=
    match convertItems ((commaItems s).map (fun item => (item, elem))) with
    | .error e => .error e
    | .ok vals => .ok (.list vals)
  match core with
  | .ok v => .ok v
  | .error e => .error (.argType ("Invalid list value: " ++ s ++ " (" ++ e.msg ++ ")"))

/-- Python dict assignment `d[k] = v`: overwrite in place, else append. -/
def dictInsert (d : List (PyVal × PyVal)) (k v : PyVal) : List (PyVal × PyVal) :=
  if d.any (fun p => pyEq p.1 k) then
    d.map (fun p => if pyEq p.1 k then (p.1, v) else p)
  else d ++ [(k, v)]

/-- Key conversion in `parse_dict`:
`if key_type is not str: k = key_type(k)` over a string key. -/
def dictKeyConvert (keyT : Scalar) (k : String) : Except PyErr PyVal :=
  match keyT with
  | .str => .ok (.str k)
  | _ =>
    match scalarCall keyT (.str k) with
    | .ok v => .ok v
    | .error _ =>
      .error (.argType ("Could not convert key \x27" ++ k ++ "\x27 to " ++ keyT.name))

/-- Strict value check on a native (JSON-sourced) value in the `parse_dict`
JSON branch: `int` must be an exact int (bool rejected), `float` accepts
int or float, `bool` and `str` must be exact. -/
def jsonValConvert (valT : Scalar) (v : PyVal) : Except PyErr PyVal :=
  match valT with
  | .int =>
    match v with
    | .int n => .ok (.int n)
    | _ => .error (.argType ("Expected int for value, got " ++ pyTypeName v ++ ": " ++ pyRepr v))
  | .float =>
    match v with
    | .int n => .ok (.float (n : Rat))
    | .float q => .ok (.float q)
    | _ => .error (.argType ("Expected float for value, got " ++ pyTypeName v ++ ": " ++ pyRepr v))
  | .bool =>
    match v with
    | .bool b => .ok (.bool b)
    | _ => .error (.argType ("Expected bool for value, got " ++ pyTypeName v ++ ": " ++ pyRepr v))
  | .str =>
    match v with
    | .str t => .ok (.str t)
    | _ => .error (.argType ("Expected str for value, got " ++ pyTypeName v ++ ": " ++ pyRepr v))

/-- Strict value conversion in the `k=v` branch of `parse_dict`: the token
is `ast.literal_eval`-ed with string fallback, then checked against the
declared value class without coercion (except the documented extra string
forms for `bool`). -/
def flatValConvert (valT : Scalar) (value : String) : Except PyErr PyVal :=
  let parsed := (literalEval value).getD (.str value)
  match valT with
  | .int =>
    match parsed with
    | .int n => .ok (.int n)
    | _ => .error (.argType ("Expected int for value, got " ++ pyTypeName parsed ++
        ": " ++ pyRepr (.str value)))
  | .float =>
    match parsed with
    | .int n => .ok (.float (n : Rat))
    | .float q => .ok (.float q)
    | _ => .error (.argType ("Expected float for value, got " ++ pyTypeName parsed ++
        ": " ++ pyRepr (.str value)))
  | .bool =>
    match parsed with
    | .bool b => .ok (.bool b)
    | _ =>
      if value == "True" || value == "true" || value == "1" then .ok (.bool true)
      else if value == "False" || value == "false" || value == "0" then .ok (.bool false)
      else .error (.argType ("Expected bool for value, got: " ++ pyRepr (.str value)))
  | .str => .ok (.str value)

/-- Split a `key=value` pair at the first `=`. -/
def splitFirstEq (s : String) : String × String :=
  (⟨s.data.takeWhile (fun c => c != '=')⟩,
   ⟨(s.data.dropWhile (fun c => c != '=')).drop 1⟩)

/-- The pair loop of the `k1=v1,k2=v2` branch of `parse_dict`. -/
def flatDictLoop (keyT valT : Scalar) :
    List String → List (PyVal × PyVal) → Except PyErr (List (PyVal × PyVal))
  | [], acc => .ok acc
  | pair :: rest, acc =>
    if !(pair.data.contains '=') then
      .error (.argType ("Invalid key=value format: \x27" ++ pair ++ "\x27 (missing \x27=\x27)"))
    else
      match dictKeyConvert keyT (pyStrip (splitFirstEq pair).1) with
      | .error e => .error e
      | .ok k =>
        match flatValConvert valT (pyStrip (splitFirstEq pair).2) with
        | .error e => .error e
        | .ok v => flatDictLoop keyT valT rest (dictInsert acc k v)

/-- The `k1=v1,k2=v2` branch of `parse_dict`. -/
def flatDictConvert (keyT valT : Scalar) (s : String) : Except PyErr PyVal :=
  match flatDictLoop keyT valT (commaItems s) [] with
  | .error e => .error e
  | .ok entries => .ok (.dict entries)

/-- The entry loop of the JSON branch of `parse_dict`. -/
def jsonDictLoop (keyT valT : Scalar) :
    List (String × PyVal) → List (PyVal × PyVal) → Except PyErr (List (PyVal × PyVal))
  | [], acc => .ok acc
  | kv :: rest, acc =>
    match dictKeyConvert keyT kv.1 with
    | .error e => .error e
    | .ok k =>
      match jsonValConvert valT kv.2 with
      | .error e => .error e
      | .ok v => jsonDictLoop keyT valT rest (dictInsert acc k v)

/-- The JSON-object branch of `parse_dict`, over the loaded object.
`json.loads` is an external library concern; a value bracketed by braces
loads as an object with string keys or raises, which is the shape the
`jloads` parameter exposes. -/
def jsonDictConvert (keyT valT : Scalar) (obj : List (String × PyVal)) :
    Except PyErr PyVal :=
  match jsonDictLoop keyT valT obj [] with
  | .error e => .error e
  | .ok entries => .ok (.dict entries)

/-- `parse_dict` (parser.py:324): empty string is the empty dict; a
brace-wrapped token goes through JSON loading with strict per-entry
conversion; otherwise the flat `k=v` grammar applies.  Non-`ArgumentTypeError`
failures would be re-wrapped, but every inner failure already is one. -/
def parse_dict (jloads : String → Except String (List (String × PyVal)))
    (keyT valT : Scalar) (s : String) : Except PyErr PyVal :=
  if pyStrip s == "" then .ok (.dict [])
  else if pyStartsWith (pyStrip s) "\x7b" && pyEndsWith (pyStrip s) "\x7d" then
    match jloads s with
    | .error e => .error (.argType ("Invalid JSON format: " ++ e))
    | .ok obj => jsonDictConvert keyT valT obj
  else flatDictConvert keyT valT s

/-! The Validator: `_validate_type` (parser.py:835). -/

/-- Shared error text `Field '...' expects ..., got ...: ...`. -/
def fieldErr (fieldName what : String) (v : PyVal) : String :=
  "Field \x27" ++ fieldName ++ "\x27 expects " ++ what ++ ", got " ++
    pyTypeName v ++ ": " ++ pyRepr v

/-- Python `str(x)` for the values interpolated into validator messages. -/
def pyStr : PyVal → String
  | .str s => s
  | v => pyRepr v

/-! The generic constructor-call fallback of `_dict_type_factory` and
`_list_type_factory` for element annotations that are not `int` / `float`
/ `bool` / `str` (parser.py:384-390, 466-472, 296-301): the declared
class is simply called on the value, with no per-entry type enforcement,
and any exception is re-wrapped as `Could not convert ...`. -/

/-- Python unhashability of the values this flow can see: the JSON loader
produces mappings, sequences, strings, numbers, booleans and `null`, of
which exactly sequences (lists) and mappings are unhashable as `dict`
keys. -/
def pyUnhashable : PyVal → Bool
  | .list _ => true
  | .dict _ => true
  | _ => false

/-- One element of `dict(iterable)`: the element must be a sequence of
length two — a two-element list or tuple, a two-character string (pairs
of its characters), or a two-entry mapping (iterating a mapping yields
its keys); anything else raises. -/
def pyPairOf : PyVal → Except Unit (PyVal × PyVal)
  | .list [a, b] => .ok (a, b)
  | .tuple [a, b] => .ok (a, b)
  | .str s =>
    (match s.data with
     | [c1, c2] => .ok (.str c1.toString, .str c2.toString)
     | _ => .error ())
  | .dict [p, q] => .ok (p.1, q.1)
  | _ => .error ()

/-- The pair loop of `dict(iterable)`: later pairs overwrite earlier
ones; an unhashable key raises. -/
def pyDictPairs : List PyVal → List (PyVal × PyVal) → Except Unit (List (PyVal × PyVal))
  | [], acc => .ok acc
  | x :: xs, acc =>
    match pyPairOf x with
    | .error _ => .error ()
    | .ok (a, b) =>
      if pyUnhashable a then .error ()
      else pyDictPairs xs (dictInsert acc a b)

/-- Python `dict(x)`: a mapping is copied entry-for-entry (no type
enforcement), a list or tuple is read as a pair sequence, the empty string
gives the empty mapping (a non-empty string\x27s length-1 characters raise),
and numbers, booleans, `None` and plain objects are not iterable. -/
def pyDictCtor : PyVal → Except Unit (List (PyVal × PyVal))
  | .dict es => .ok es
  | .list xs => pyDictPairs xs []
  | .tuple xs => pyDictPairs xs []
  | .str s => if s == "" then .ok [] else .error ()
  | _ => .error ()

/-- The generic fallback of the JSON branch of `parse_dict` for a
`dict[...]`-annotated value class (parser.py:384-390): `value_type(v)` is
a plain `dict` constructor call; on failure the wrapped message
interpolates `str(v)` and `dict` (the `__name__` of the alias). -/
def jsonValConvertD (v : PyVal) : Except PyErr PyVal :=
  match pyDictCtor v with
  | .ok es => .ok (.dict es)
  | .error _ =>
    .error (.argType ("Could not convert value \x27" ++ pyStr v ++ "\x27 to dict"))

/-- The generic fallback of the `k=v` branch of `parse_dict` for a
`dict[...]`-annotated value class (parser.py:466-472): `value_type(value)`
is called on the raw string, so only the empty string converts (to the
empty mapping). -/
def flatValConvertD (value : String) : Except PyErr PyVal :=
  match pyDictCtor (.str value) with
  | .ok es => .ok (.dict es)
  | .error _ =>
    .error (.argType ("Could not convert value \x27" ++ value ++ "\x27 to dict"))

/-- The entry loop of the JSON branch of `parse_dict` when the declared
value class is `dict[VK, VV]`: keys convert as usual, values go through
the generic fallback. -/
def jsonDictLoopD (keyT : Scalar) :
    List (String × PyVal) → List (PyVal × PyVal) → Except PyErr (List (PyVal × PyVal))
  | [], acc => .ok acc
  | kv :: rest, acc =>
    match dictKeyConvert keyT kv.1 with
    | .error e => .error e
    | .ok k =>
      match jsonValConvertD kv.2 with
      | .error e => .error e
      | .ok v => jsonDictLoopD keyT rest (dictInsert acc k v)

/-- The pair loop of the `k1=v1,k2=v2` branch of `parse_dict` when the
declared value class is `dict[VK, VV]`. -/
def flatDictLoopD (keyT : Scalar) :
    List String → List (PyVal × PyVal) → Except PyErr (List (PyVal × PyVal))
  | [], acc => .ok acc
  | pair :: rest, acc =>
    if !(pair.data.contains '=') then
      .error (.argType ("Invalid key=value format: \x27" ++ pair ++ "\x27 (missing \x27=\x27)"))
    else
      match dictKeyConvert keyT (pyStrip (splitFirstEq pair).1) with
      | .error e => .error e
      | .ok k =>
        match flatValConvertD (pyStrip (splitFirstEq pair).2) with
        | .error e => .error e
        | .ok v => flatDictLoopD keyT rest (dictInsert acc k v)

/-- `parse_dict` (parser.py:324) for a `dict[K, dict[VK, VV]]` annotation:
identical shape to the scalar-valued case, but the per-value conversion is
the generic constructor-call fallback — the inner key/value classes `VK`,
`VV` are never consulted during decoding. -/
def parse_dictD (jloads : String → Except String (List (String × PyVal)))
    (keyT : Scalar) (s : String) : Except PyErr PyVal :=
  if pyStrip s == "" then .ok (.dict [])
  else if pyStartsWith (pyStrip s) "\x7b" && pyEndsWith (pyStrip s) "\x7d" then
    match jloads s with
    | .error e => .error (.argType ("Invalid JSON format: " ++ e))
    | .ok obj =>
      (match jsonDictLoopD keyT obj [] with
       | .error e => .error e
       | .ok entries => .ok (.dict entries))
  else
    (match flatDictLoopD keyT (commaItems s) [] with
     | .error e => .error e
     | .ok entries => .ok (.dict entries))

/-- The element conversion of `parse_list` for a `list[...]` element
annotation (parser.py:296-301): the annotation is not `int` / `float` /
`bool`, so the item is not literal-evaluated, and `list[E](item)` lists
the item\x27s characters — it never fails and never consults `E`. -/
def convertItemL (item : String) : PyVal :=
  .list (item.data.map (fun c => PyVal.str c.toString))

/-- `parse_list` (parser.py:283) for a `list[list[E]]` annotation: every
comma segment becomes its list of character strings, so decoding always
succeeds. -/
def parse_listL (s0 : String) : Except PyErr PyVal :=
  .ok (.list ((commaItems (stripWrap "[" "]" s0)).map convertItemL))

/-- The basic-type chain of `_validate_type`: `int` must be an exact int
(bool is rejected), `float` accepts int or float but not bool, `bool` and
`str` must be exact. -/
def scalarValidate (v : PyVal) (sc : Scalar) (fieldName : String) : Except PyErr Unit :=
  match sc with
  | .int =>
    match v with
    | .int _ => .ok ()
    | _ => .error (.typeErr (fieldErr fieldName "int" v))
  | .float =>
    match v with
    | .int _ => .ok ()
    | .float _ => .ok ()
    | _ => .error (.typeErr (fieldErr fieldName "float" v))
  | .bool =>
    match v with
    | .bool _ => .ok ()
    | _ => .error (.typeErr (fieldErr fieldName "bool" v))
  | .str =>
    match v with
    | .str _ => .ok ()
    | _ => .error (.typeErr (fieldErr fieldName "str" v))

def validateElems (sc : Scalar) (fieldName : String) : Nat → List PyVal → Except PyErr Unit
  | _, [] => .ok ()
  | i, x :: xs =>
    match scalarValidate x sc (fieldName ++ "[" ++ toString i ++ "]") with
    | .error e => .error e
    | .ok _ => validateElems sc fieldName (i + 1) xs

def validateTupleElems (fieldName : String) : Nat → List (PyVal × Scalar) → Except PyErr Unit
  | _, [] => .ok ()
  | i, (x, sc) :: xs =>
    match scalarValidate x sc (fieldName ++ "[" ++ toString i ++ "]") with
    | .error e => .error e
    | .ok _ => validateTupleElems fieldName (i + 1) xs

def validateDictEntries (keyT valT : Scalar) (fieldName : String) :
    List (PyVal × PyVal) → Except PyErr Unit
  | [] => .ok ()
  | (k, v) :: es =>
    match scalarValidate k keyT (fieldName ++ " key \x27" ++ pyStr k ++ "\x27") with
    | .error e => .error e
    | .ok _ =>
      match scalarValidate v valT (fieldName ++ "[\x27" ++ pyStr k ++ "\x27]") with
      | .error e => .error e
      | .ok _ => validateDictEntries keyT valT fieldName es

/-- The entry loop of `_validate_type` for `dict[K, dict[VK, VV]]`: each
entry value recurses into the declared inner mapping kind (`MISSING`
passes, the value must be a mapping, its entries must match `VK` / `VV`),
with the nested path names of the source. -/
def validateDictEntriesD (keyT vk vv : Scalar) (fieldName : String) :
    List (PyVal × PyVal) → Except PyErr Unit
  | [] => .ok ()
  | (k, v) :: es =>
    match scalarValidate k keyT (fieldName ++ " key \x27" ++ pyStr k ++ "\x27") with
    | .error e => .error e
    | .ok _ =>
      match (if v.isMissing then .ok () else
             match v with
             | .dict es2 =>
               validateDictEntries vk vv (fieldName ++ "[\x27" ++ pyStr k ++ "\x27]") es2
             | _ => .error (.typeErr
                 (fieldErr (fieldName ++ "[\x27" ++ pyStr k ++ "\x27]") "dict" v))) with
      | .error e => .error e
      | .ok _ => validateDictEntriesD keyT vk vv fieldName es

/-- The element loop of `_validate_type` for `list[list[E]]`: each element
recurses into the declared inner list kind (`MISSING` passes, the element
must be a list, its elements must match `E`), with the indexed path names
of the source. -/
def validateElemsL (e : Scalar) (fieldName : String) : Nat → List PyVal → Except PyErr Unit
  | _, [] => .ok ()
  | i, x :: xs =>
    match (if x.isMissing then .ok () else
           match x with
           | .list ys => validateElems e (fieldName ++ "[" ++ toString i ++ "]") 0 ys
           | _ => .error (.typeErr
               (fieldErr (fieldName ++ "[" ++ toString i ++ "]") "list" x))) with
    | .error e2 => .error e2
    | .ok _ => validateElemsL e fieldName (i + 1) xs

/-- `_validate_type` (parser.py:835).  `MISSING` passes; `Optional` permits
`None` and otherwise validates the inner type; a dataclass class matches
none of the `if` chains, so `record` kinds pass with no check; list / tuple /
dict kinds check the container shape and recurse per element, skipping
elements whose declared class is a dataclass; `Literal` checks membership. -/
def validate_type (v : PyVal) (kind : TypeKind) (fieldName : String) : Except PyErr Unit :=
  if v.isMissing then .ok ()
  else match kind with
  | .opt inner => if v.isNone then .ok () else validate_type v inner fieldName
  | .record _ => .ok ()
  | .scalar sc => scalarValidate v sc fieldName
  | .list e =>
    match v with
    | .list xs => validateElems e fieldName 0 xs
    | _ => .error (.typeErr (fieldErr fieldName "list" v))
  | .listRec _ =>
    match v with
    | .list _ => .ok ()
    | _ => .error (.typeErr (fieldErr fieldName "list" v))
  | .tuple es =>
    match v with
    | .list xs =>
      if xs.length ≠ es.length then
        .error (.valueErr ("Field \x27" ++ fieldName ++ "\x27 expects tuple of length " ++
          toString es.length ++ ", got length " ++ toString xs.length))
      else validateTupleElems fieldName 0 (xs.zip es)
    | .tuple xs =>
      if xs.length ≠ es.length then
        .error (.valueErr ("Field \x27" ++ fieldName ++ "\x27 expects tuple of length " ++
          toString es.length ++ ", got length " ++ toString xs.length))
      else validateTupleElems fieldName 0 (xs.zip es)
    | _ => .error (.typeErr (fieldErr fieldName "tuple" v))
  | .tupleRec _ =>
    match v with
    | .list _ => .ok ()
    | .tuple _ => .ok ()
    | _ => .error (.typeErr (fieldErr fieldName "tuple" v))
  | .dict keyT valT =>
    match v with
    | .dict es => validateDictEntries keyT valT fieldName es
    | _ => .error (.typeErr (fieldErr fieldName "dict" v))
  | .dictD keyT vk vv =>
    match v with
    | .dict es => validateDictEntriesD keyT vk vv fieldName es
    | _ => .error (.typeErr (fieldErr fieldName "dict" v))
  | .listL e =>
    match v with
    | .list xs => validateElemsL e fieldName 0 xs
    | _ => .error (.typeErr (fieldErr fieldName "list" v))
  | .literal choices =>
    if choices.any (fun c => pyEq v c) then .ok ()
    else .error (.valueErr ("Field \x27" ++ fieldName ++ "\x27 expects one of (" ++
      joinComma (choices.map pyRepr) ++ "), got " ++ pyRepr v))

/-! The Assembler building blocks. -/

def lookupStr (kvs : List (String × PyVal)) (k : String) : Option PyVal :=
  (kvs.find? (fun p => p.1 == k)).map (fun p => p.2)

/-- The field loop of `cls(**kwargs)`: keyword value, else default, else a
missing-argument `TypeError`. -/
def constructVals (kwargs : List (String × PyVal)) (cls : String) :
    List FieldDesc → Except PyErr (List (String × PyVal))
  | [] => .ok []
  | f :: fs =>
    match lookupStr kwargs f.fname with
    | some v =>
      (match constructVals kwargs cls fs with
       | .error e => .error e
       | .ok vals => .ok ((f.fname, v) :: vals))
    | Option.none =>
      if f.dflt.isMissing then
        .error (.typeErr (cls ++ "() missing required argument: \x27" ++ f.fname ++ "\x27"))
      else
        (match constructVals kwargs cls fs with
         | .error e => .error e
         | .ok vals => .ok ((f.fname, f.dflt) :: vals))

/-- Python `cls(**kwargs)` for a dataclass: rejects unexpected keywords,
fills omitted fields from their defaults, fails on omitted required
fields, and stores fields in declaration order. -/
def constructKw (env : Env) (cls : String) (kwargs : List (String × PyVal)) :
    Except PyErr PyVal :=
  match envFields env cls with
  | Option.none => .error (.typeErr (cls ++ " is not a known dataclass"))
  | some fields =>
    if kwargs.any (fun kv => fields.all (fun f => f.fname ≠ kv.1)) then
      .error (.typeErr (cls ++ "() got an unexpected keyword argument"))
    else
      match constructVals kwargs cls fields with
      | .error e => .error e
      | .ok vals => .ok (.inst cls vals)

/-- Python `cls(**d)` where `d` is a dict value: keywords must be strings. -/
def kwargsOfDict : List (PyVal × PyVal) → Except PyErr (List (String × PyVal))
  | [] => .ok []
  | kv :: rest =>
    match kv.1 with
    | .str s =>
      (match kwargsOfDict rest with
       | .error e => .error e
       | .ok kws => .ok ((s, kv.2) :: kws))
    | _ => .error (.typeErr "keywords must be strings")

/-- `t(**v) if isinstance(v, dict) else v` for one element. -/
def elemConstruct (env : Env) (cls : String) (x : PyVal) : Except PyErr PyVal :=
  match x with
  | .dict es =>
    (match kwargsOfDict es with
     | .error e => .error e
     | .ok kw => constructKw env cls kw)
  | w => .ok w

/-- Element loop for `list[D]` values. -/
def elemConstructList (env : Env) (cls : String) : List PyVal → Except PyErr (List PyVal)
  | [] => .ok []
  | x :: xs =>
    match elemConstruct env cls x with
    | .error e => .error e
    | .ok y =>
      match elemConstructList env cls xs with
      | .error e => .error e
      | .ok ys => .ok (y :: ys)

/-- Element loop for `tuple[D, ...]` values. -/
def elemConstructZip (env : Env) : List (String × PyVal) → Except PyErr (List PyVal)
  | [] => .ok []
  | (cls, x) :: rest =>
    match elemConstruct env cls x with
    | .error e => .error e
    | .ok y =>
      match elemConstructZip env rest with
      | .error e => .error e
      | .ok ys => .ok (y :: ys)

/-- `_handle_field_type` (parser.py:809): converts file-sourced lists of
mappings into dataclass instances for `tuple[D, ...]` (only when the value
is a list of matching length) and `list[D]` fields; everything else is
passed through. -/
def handle_field_type (env : Env) (v : PyVal) (kind : TypeKind) : Except PyErr PyVal :=
  match kind with
  | .tupleRec clss =>
    (match v with
     | .list xs =>
       if xs.length = clss.length then
         match elemConstructZip env (clss.zip xs) with
         | .error e => .error e
         | .ok ys => .ok (.tuple ys)
       else .ok v
     | _ => .ok v)
  | .listRec cls =>
    (match v with
     | .list xs =>
       (match elemConstructList env cls xs with
        | .error e => .error e
        | .ok ys => .ok (.list ys))
     | _ => .ok v)
  | _ => .ok v

/-! The Resolver: `_resolve_field_value` (parser.py:751) and
`_merge_nested` (parser.py:943).  `parsed_args` is the argparse namespace:
it holds an entry for every declared argument, `None` when the argument
was not supplied on the command line. -/

def paLookup (pa : List (String × PyVal)) (k : String) : Option PyVal :=
  (pa.find? (fun p => p.1 == k)).map (fun p => p.2)

/-- `arg_key in parsed_args and parsed_args[arg_key] is not None`. -/
def cliPresent (pa : List (String × PyVal)) (k : String) : Bool :=
  match paLookup pa k with
  | some v => !v.isNone
  | Option.none => false

/-- Membership `name in section` for a mapping section (the sections this
parser reads come from JSON/YAML objects, whose keys are strings). -/
def cfgMember (cfg : PyVal) (name : String) : Bool :=
  match cfg with
  | .dict es => es.any (fun p => pyEq p.1 (.str name))
  | _ => false

/-- `section[name]` under a `cfgMember` guard. -/
def cfgGet (cfg : PyVal) (name : String) : PyVal :=
  match cfg with
  | .dict es => (((es.find? (fun p => pyEq p.1 (.str name))).map (fun p => p.2)).getD .missing)
  | _ => .missing

/-- `section.get(name, default)` on a mapping. -/
def cfgGetD (cfg : PyVal) (name : String) (d : PyVal) : PyVal :=
  match cfg with
  | .dict es => (((es.find? (fun p => pyEq p.1 (.str name))).map (fun p => p.2)).getD d)
  | _ => d

/-- `config_has_override` (parser.py:792).  The source writes it
recursively, but the recursion over `cfg.values()` is reachable only when
the dict is empty, so the test is extensionally "is a non-empty mapping". -/
def configHasOverride : PyVal → Bool
  | .dict es => !es.isEmpty
  | _ => false

/-- `parser.error` text of `_build_instance` / `_merge_nested`. -/
def missingMsg (cls : String) (missing : List String) : String :=
  "Missing required arguments for " ++ cls ++ ": " ++ joinComma missing ++
  ". These must be provided either as command-line arguments or in the config file."

/-- The `elif` chain of one `_merge_nested` field after the direct CLI
hit, parameterized by the recursive merge for deeper nesting. -/
def mergeFieldRest (deeper : String → String → PyVal → List (String × PyVal) →
      Except PyErr PyVal)
    (f : FieldDesc) (kCli : String) (cfgNested : PyVal)
    (pa : List (String × PyVal)) : Except PyErr (Option (String × PyVal)) :=
  if pa.any (fun kv => pyStartsWith kv.1 (kCli ++ ".")) then
    -- `self._merge_nested(cast(Type[Any], f.type), ...)`: `dataclasses.fields`
    -- inside the recursive call requires a dataclass type.
    match f.kind with
    | .record c =>
      match cfgNested with
      | .dict _ =>
        (match deeper c kCli (cfgGetD cfgNested f.fname (.dict [])) pa with
         | .ok v => .ok (some (f.fname, v))
         | .error e => .error e)
      | _ => .error (.typeErr "AttributeError: object has no attribute get")
    | _ => .error (.typeErr "fields() should be called with a dataclass type or instance")
  else if cfgMember cfgNested f.fname then .ok (some (f.fname, cfgGet cfgNested f.fname))
  else if !f.dflt.isMissing then .ok (some (f.fname, f.dflt))
  else .ok Option.none

/-- The field loop of `_merge_nested`, parameterized by the recursive
merge. -/
def mergeFields (deeper : String → String → PyVal → List (String × PyVal) →
      Except PyErr PyVal) :
    List FieldDesc → String → PyVal → List (String × PyVal) →
      Except PyErr (List (String × PyVal) × List String)
  | [], _, _, _ => .ok ([], [])
  | f :: fs, pfxNested, cfgNested, pa =>
    let kCli := pfxNested ++ "." ++ f.fname
    let contrib : Except PyErr (Option (String × PyVal)) :=
      match paLookup pa kCli with
      | some v =>
        if !v.isNone then .ok (some (f.fname, v))
        else mergeFieldRest deeper f kCli cfgNested pa
      | Option.none => mergeFieldRest deeper f kCli cfgNested pa
    match contrib with
    | .error e => .error e
    | .ok c =>
      match mergeFields deeper fs pfxNested cfgNested pa with
      | .error e => .error e
      | .ok (vals, missing) =>
        match c with
        | some kv => .ok (kv :: vals, missing)
        | Option.none => .ok (vals, ("--" ++ kCli) :: missing)

/-- `_merge_nested` (parser.py:943): per-field resolution of a promoted
nested dataclass — CLI value, else recursive merge when any declared
argument path lies under the field, else config entry, else default, else
missing; missing fields abort with one aggregated `parser.error`. -/
def merge_nested (env : Env) : Nat → String → String → PyVal →
    List (String × PyVal) → Except PyErr PyVal
  | 0, _, _, _, _ => .error (.typeErr "RecursionError: maximum recursion depth exceeded")
  | fuel + 1, clsNested, pfxNested, cfgNested, pa =>
    match envFields env clsNested with
    | Option.none => .error (.typeErr "fields() should be called with a dataclass type or instance")
    | some fields =>
      match mergeFields (merge_nested env fuel) fields pfxNested cfgNested pa with
      | .error e => .error e
      | .ok (vals, missing) =>
        if missing.isEmpty then constructKw env clsNested vals
        else .error (.sysExit (missingMsg clsNested missing))

/-- `_resolve_field_value` (parser.py:751): default, overridden by a config
entry, overridden by a non-`None` CLI entry; then, for a dataclass-typed
field, override detection promotes the whole field into `_merge_nested`. -/
def resolve_field_value (env : Env) (fuel : Nat) (f : FieldDesc) (argKey : String)
    (configSection : PyVal) (pa : List (String × PyVal)) : Except PyErr PyVal :=
  let v1 := f.dflt
  let v2 := if cfgMember configSection f.fname then cfgGet configSection f.fname else v1
  let v3 :=
    match paLookup pa argKey with
    | some v => if !v.isNone then v else v2
    | Option.none => v2
  match f.kind with
  | .record cls =>
    let nestedCfg :=
      match configSection with
      | .dict _ => cfgGetD configSection f.fname (.dict [])
      | _ => .dict []
    let hasOv :=
      pa.any (fun kv => pyStartsWith kv.1 (argKey ++ ".") && !kv.2.isNone) ||
      configHasOverride nestedCfg
    if hasOv then merge_nested env fuel cls argKey nestedCfg pa
    else .ok v3
  | _ => .ok v3

/-- The per-field body of `_build_instance`: resolve, type-specific
handling, validation. -/
def fieldStep (env : Env) (fuel : Nat) (cls : String) (cfgSec : PyVal)
    (pa : List (String × PyVal)) (f : FieldDesc) : Except PyErr PyVal :=
  match resolve_field_value env fuel f (cls ++ "." ++ f.fname) cfgSec pa with
  | .error e => .error e
  | .ok v =>
    match handle_field_type env v f.kind with
    | .error e => .error e
    | .ok v =>
      match validate_type v f.kind (cls ++ "." ++ f.fname) with
      | .error e => .error e
      | .ok _ => .ok v

/-- The field loop of `_build_instance`, collecting assembled values and
missing required fields. -/
def buildFields (env : Env) (fuel : Nat) (cls : String) (cfgSec : PyVal)
    (pa : List (String × PyVal)) :
    List FieldDesc → Except PyErr (List (String × PyVal) × List String)
  | [] => .ok ([], [])
  | f :: fs =>
    match fieldStep env fuel cls cfgSec pa f with
    | .error e => .error e
    | .ok v =>
      match buildFields env fuel cls cfgSec pa fs with
      | .error e => .error e
      | .ok (vals, missing) =>
        if v.isMissing then .ok (vals, ("--" ++ cls ++ "." ++ f.fname) :: missing)
        else .ok ((f.fname, v) :: vals, missing)

/-- `config_data.get(cls.__name__, {})`. -/
def cfgSection (configData : PyVal) (cls : String) : PyVal :=
  match configData with
  | .dict _ => cfgGetD configData cls (.dict [])
  | _ => .dict []

/-- `_build_instance` (parser.py:707) as invoked by `parse`: the prefix is
the class name and the config section is `config_data.get(cls.__name__, {})`;
missing required fields are collected across the whole field list and then
reported in one aggregated `parser.error`. -/
def build_instance (env : Env) (fuel : Nat) (cls : String)
    (pa : List (String × PyVal)) (configData : PyVal) : Except PyErr PyVal :=
  match envFields env cls with
  | Option.none => .error (.typeErr "fields() should be called with a dataclass type or instance")
  | some fields =>
    match buildFields env fuel cls (cfgSection configData cls) pa fields with
    | .error e => .error e
    | .ok (vals, missing) =>
      if missing.isEmpty then constructKw env cls vals
      else .error (.sysExit (missingMsg cls missing))

/-! The entry points `parse` (parser.py:650) and `safe_parse`
(parser.py:688), after the external steps (command-line tokenization via
argparse, config file loading) have produced the parsed-argument map and
the config mapping. -/

/-- The keys excluded from custom-flag passthrough: `f"{cls.__name__}.{field.name}"`
for every dataclass and top-level field. -/
def dcFieldNames (env : Env) (types : List String) : List String :=
  types.flatMap (fun c => (((envFields env c)).getD []).map (fun f => c ++ "." ++ f.fname))

/-- Python dict assignment with string keys. -/
def strInsert (r : List (String × PyVal)) (k : String) (v : PyVal) :
    List (String × PyVal) :=
  if r.any (fun p => p.1 == k) then r.map (fun p => if p.1 == k then (p.1, v) else p)
  else r ++ [(k, v)]

/-- `parse`: one instance per dataclass under its class name, then every
parsed key that is neither a top-level dataclass field name nor the config
destination is copied into the same result mapping (overwriting on
collision, since it is assigned later). -/
def parseInstances (env : Env) (fuel : Nat) (pa : List (String × PyVal))
    (configData : PyVal) :
    List String → List (String × PyVal) → Except PyErr (List (String × PyVal))
  | [], acc => .ok acc
  | c :: cs, acc =>
    match build_instance env fuel c pa configData with
    | .error e => .error e
    | .ok inst => parseInstances env fuel pa configData cs (strInsert acc c inst)

/-- The custom-flag passthrough assignment of `parse`: copy the parsed
entry unless its key is a top-level dataclass field name or the config
destination. -/
def passStep (names : List String) (configDest : String)
    (acc : List (String × PyVal)) (kv : String × PyVal) : List (String × PyVal) :=
  if !(names.contains kv.1) && kv.1 ≠ configDest then strInsert acc kv.1 kv.2 else acc

def parseResult (env : Env) (fuel : Nat) (types : List String)
    (pa : List (String × PyVal)) (configData : PyVal) (configDest : String) :
    Except PyErr (List (String × PyVal)) :=
  match parseInstances env fuel pa configData types [] with
  | .error e => .error e
  | .ok r => .ok (pa.foldl (passStep (dcFieldNames env types) configDest) r)

/-- Outcome of `safe_parse` as observed by the calling process. -/
inductive SafeOutcome where
  | ok (r : List (String × PyVal))
  | err (msg : String)
  | terminated (msg : String)
deriving Repr

/-- `safe_parse`: wraps `parse` in `try ... except Exception`; a
`SystemExit` (raised by `argparse.ArgumentParser.error`) is a
`BaseException` and is not caught, so it terminates the process. -/
def safe_parse (env : Env) (fuel : Nat) (types : List String)
    (pa : List (String × PyVal)) (configData : PyVal) (configDest : String) :
    SafeOutcome :=
  match parseResult env fuel types pa configData configDest with
  | .ok r => .ok r
  | .error e => if e.isException then .err e.msg else .terminated e.msg

/-! Argument registration (`__init__`, `add_flag`,
`_add_dataclass_arguments`): used to settle configuration-time behavior. -/

/-- The leaf argument paths `_add_fields_for_class` declares, in order:
nested dataclass fields (also under one `Optional`) expand recursively,
every other field declares `--<pfx>.<name>`. -/
def declaredArgs (env : Env) : Nat → String → List FieldDesc → List String
  | 0, _, _ => []
  | fuel + 1, pfx, fields =>
    fields.flatMap (fun f =>
      let kind := match f.kind with | .opt inner => inner | k => k
      match kind with
      | .record c => declaredArgs env fuel (pfx ++ "." ++ f.fname) (((envFields env c)).getD [])
      | _ => [pfx ++ "." ++ f.fname])

/-- All leaf paths declared for the given dataclasses. -/
def topDeclared (env : Env) (fuel : Nat) (types : List String) : List String :=
  types.flatMap (fun c => declaredArgs env fuel c (((envFields env c)).getD []))

/-- The argparse namespace for a run: every declared argument is present,
mapped to its supplied (already converted) value or to `None`. -/
def mkPA (declared : List String) (cliVals : List (String × PyVal)) :
    List (String × PyVal) :=
  declared.map (fun k => (k, (lookupStr cliVals k).getD .none))

/-- `add_flag` (parser.py:129): rejects an option string already
registered, else registers it. -/
def add_flag (registered : List String) (n : String) : Except PyErr (List String) :=
  if registered.contains n then .error (.valueErr ("Flag name conflict: " ++ n))
  else .ok (registered ++ [n])

/-- The flag-registration loop of `__init__`. -/
def addFlags : List String → List String → Except PyErr (List String)
  | [], acc => .ok acc
  | n :: ns, acc =>
    match add_flag acc n with
    | .error e => .error e
    | .ok acc' => addFlags ns acc'

/-- The dataclass-argument registration loop: argparse itself rejects a
duplicate option string at registration. -/
def addDataclassArgs : List String → List String → Except PyErr (List String)
  | [], acc => .ok acc
  | p :: ps, acc =>
    if acc.contains ("--" ++ p) then
      .error (.argType ("conflicting option string: --" ++ p))
    else addDataclassArgs ps (acc ++ ["--" ++ p])

/-- Parser construction: the config flag is registered first, then the
caller's flags through `add_flag`, then the dataclass leaf arguments. -/
def mkParser (env : Env) (fuel : Nat) (types : List String) (flags : List String)
    (configFlag : String) : Except PyErr (List String) :=
  match addFlags flags [configFlag] with
  | .error e => .error e
  | .ok r1 => addDataclassArgs (topDeclared env fuel types) r1

/-! Serialization of an assembled instance back into a file-config tree,
for the round-trip property. -/

/-- Modelled from the spec: the repository itself has no serializer; §8
states the round trip as "serializing its field values into a file-config
tree", and §6 fixes file-config trees as JSON/YAML data.  Dataclass
instances therefore become mappings keyed by field name, tuples load back
from JSON/YAML as lists, and scalars / `None` / lists / mappings carry
over unchanged.  The fuel bounds the nesting depth; the identity at
exhausted fuel is never reached on values within the fuel's depth. -/
def serializeF : Nat → PyVal → PyVal
  | 0, v => v
  | fuel + 1, v =>
    match v with
    | .inst _ flds => .dict (flds.map (fun p => (.str p.1, serializeF fuel p.2)))
    | .list xs => .list (xs.map (fun x => serializeF fuel x))
    | .tuple xs => .list (xs.map (fun x => serializeF fuel x))
    | .dict es => .dict (es.map (fun p => (serializeF fuel p.1, serializeF fuel p.2)))
    | w => w

/-- Modelled from the spec: the file-config tree for one instance is the
top-level mapping keyed by the record name (§6). -/
def serializeTop (fuel : Nat) (cls : String) (v : PyVal) : PyVal :=
  .dict [(.str cls, serializeF fuel v)]

/-! Shape predicates used by the verified properties (not part of the
source): well-typedness of a value against a kind, and the schema classes
for which the round trip is proved. -/

/-- A value structurally inhabits a scalar class the way the parser's own
validator accepts it (`float` fields may hold ints). -/
def scalarWT (v : PyVal) (sc : Scalar) : Bool :=
  match sc with
  | .int => match v with | .int _ => true | _ => false
  | .float => match v with | .int _ => true | .float _ => true | _ => false
  | .bool => match v with | .bool _ => true | _ => false
  | .str => match v with | .str _ => true | _ => false

/-- Scalar-shaped value (no containers, no instance, no sentinel). -/
def isScalarV : PyVal → Bool
  | .int _ => true
  | .float _ => true
  | .bool _ => true
  | .str _ => true
  | _ => false

/-- Well-typedness for the non-record kinds. -/
def flatWT (v : PyVal) : TypeKind → Bool
  | .scalar sc => scalarWT v sc
  | .literal cs => cs.any (fun c => pyEq v c) && isScalarV v
  | .opt inner => v.isNone || flatWT v inner
  | .list e =>
    match v with
    | .list xs => xs.all (fun x => scalarWT x e)
    | _ => false
  | .tuple es =>
    match v with
    | .tuple xs => xs.length == es.length && (xs.zip es).all (fun p => scalarWT p.1 p.2)
    | _ => false
  | .dict keyT valT =>
    match v with
    | .dict es => es.all (fun p => scalarWT p.1 keyT && scalarWT p.2 valT)
    | _ => false
  | .record _ => false
  | .listRec _ => false
  | .tupleRec _ => false
  | .dictD _ _ _ => false
  | .listL _ => false

/-- Instance fields aligned with a schema: same names in declaration
order, each value accepted by the supplied check. -/
def wtFieldsAux (wt : PyVal → TypeKind → Bool) :
    List (String × PyVal) → List FieldDesc → Bool
  | [], [] => true
  | (n, v) :: xs, f :: fs => n == f.fname && wt v f.kind && wtFieldsAux wt xs fs
  | _, _ => false

def wtListAux (wt : PyVal → TypeKind → Bool) (cls : String) : List PyVal → Bool
  | [] => true
  | x :: xs => wt x (.record cls) && wtListAux wt cls xs

def wtTupleAux (wt : PyVal → TypeKind → Bool) : List PyVal → List String → Bool
  | [], [] => true
  | x :: xs, c :: cs => wt x (.record c) && wtTupleAux wt xs cs
  | _, _ => false

/-- Well-typedness of a value against a kind, with fuel bounding record
nesting depth. -/
def wellTypedVal (env : Env) : Nat → PyVal → TypeKind → Bool
  | 0, _, _ => false
  | fuel + 1, v, kind =>
    match kind with
    | .record cls =>
      (match v with
       | .inst c flds =>
         c == cls &&
         (match envFields env cls with
          | some fs => wtFieldsAux (wellTypedVal env fuel) flds fs
          | Option.none => false)
       | _ => false)
    | .listRec cls =>
      (match v with
       | .list xs => wtListAux (wellTypedVal env fuel) cls xs
       | _ => false)
    | .tupleRec clss =>
      (match v with
       | .tuple xs => wtTupleAux (wellTypedVal env fuel) xs clss
       | _ => false)
    | k => flatWT v k

/-- No duplicate names. -/
def nodupStr : List String → Bool
  | [] => true
  | x :: xs => !(xs.contains x) && nodupStr xs

/-- Kinds whose well-typed values serialize to themselves (no instance and
no tuple inside). -/
def flatOK : TypeKind → Bool
  | .scalar _ => true
  | .literal _ => true
  | .opt inner => flatOK inner
  | .list _ => true
  | .dict _ _ => true
  | _ => false

def rtOKAux (rt : TypeKind → Bool) : List FieldDesc → Bool
  | [] => true
  | f :: fs => rt f.kind && rtOKAux rt fs

/-- The field kinds inside nested records for which the round trip is
proved: flat kinds and non-empty nested records of the same shape. -/
def rtOK (env : Env) : Nat → TypeKind → Bool
  | 0, _ => false
  | fuel + 1, .record cls =>
    (match envFields env cls with
     | some fs =>
       !fs.isEmpty && nodupStr (fs.map (fun f => f.fname)) &&
       rtOKAux (rtOK env fuel) fs
     | Option.none => false)
  | _ + 1, k => flatOK k

/-- A record all of whose fields are flat (the element shape of
round-trippable `list[D]` fields). -/
def flatRecord (env : Env) (cls : String) : Bool :=
  match envFields env cls with
  | some fs => nodupStr (fs.map (fun f => f.fname)) && fs.all (fun f => flatOK f.kind)
  | Option.none => false

/-- Round-trippable top-level field list: unique names; every field either
round-trippable in place or a `list[D]` of a flat record. -/
def rtTopFields (env : Env) (fuel : Nat) (fs : List FieldDesc) : Bool :=
  nodupStr (fs.map (fun f => f.fname)) &&
  fs.all (fun f =>
    rtOK env fuel f.kind ||
    (match f.kind with
     | .listRec c => flatRecord env c
     | _ => false))

/-- Every parsed value is `None` (a run with no command-line input). -/
def allNone (pa : List (String × PyVal)) : Bool :=
  pa.all (fun kv => kv.2.isNone)

def paOKAux (env : Env)
    (pk : String → List FieldDesc → List (String × PyVal) → Bool)
    (pfx : String) (pa : List (String × PyVal)) : List FieldDesc → Bool
  | [] => true
  | f :: fs' =>
    (let key := pfx ++ "." ++ f.fname
     match f.kind with
     | .record c =>
       pa.any (fun kv => pyStartsWith kv.1 (key ++ ".")) &&
       (match envFields env c with
        | some fs => pk key fs pa
        | Option.none => false)
     | _ => !(pa.any (fun kv => pyStartsWith kv.1 (key ++ ".")))) &&
    paOKAux env pk pfx pa fs'

/-- The argparse namespace keys follow the schema tree under `pfx`: some
key lies strictly under every nested-dataclass field, and no key lies
strictly under any other field.  `mkPA` over `declaredArgs` has this
shape. -/
def paOK (env : Env) : Nat → String → List FieldDesc → List (String × PyVal) → Bool
  | 0, _, _, _ => false
  | fuel + 1, pfx, fields, pa => paOKAux env (paOK env fuel) pfx pa fields

/-! CLI decoding: the converter `_add_field_argument` registers for a
field, applied by argparse to the raw token. -/

/-- The kinds a single CLI token is decoded into: scalars (`int`, `float`,
`str`, `_strict_bool`), `Literal` choices (string conversion plus argparse
choices membership), `Optional` through its inner type, and the tuple /
list / dict factories.  §4.1 excludes `Record` and compound-of-record
kinds from single-token decoding. -/
def cliDecodable : TypeKind → Bool
  | .record _ => false
  | .listRec _ => false
  | .tupleRec _ => false
  | .opt inner => cliDecodable inner
  | _ => true

/-- Decodable kinds whose compound element classes are all scalars — the
fragment on which every decode branch is strict.  `dictD` and `listL`
(nested-compound element annotations) instead decode their element values
through the generic constructor-call fallback, which enforces nothing
about the inner entries. -/
def scalarElems : TypeKind → Bool
  | .opt inner => scalarElems inner
  | .dictD _ _ _ => false
  | .listL _ => false
  | _ => true

/-- The registered converter per kind.  For `record`, `listRec` and
`tupleRec` kinds no single-token decoding is defined (§4.1): nested
records never get a converter, and the converters the source would build
for compound-of-record element classes are out of the decode contract. -/
def decodeCLI (jloads : String → Except String (List (String × PyVal))) :
    TypeKind → String → Except PyErr PyVal
  | .scalar .int, s =>
    (match pyIntOfStr s with
     | some n => .ok (.int n)
     | Option.none => .error (.valueErr ("invalid literal for int(): " ++ s)))
  | .scalar .float, s =>
    (match pyFloatOfStr s with
     | some q => .ok (.float q)
     | Option.none => .error (.valueErr ("could not convert string to float: " ++ s)))
  | .scalar .str, s => .ok (.str s)
  | .scalar .bool, s =>
    (match strict_bool s with
     | .ok b => .ok (.bool b)
     | .error e => .error e)
  | .literal cs, s =>
    if cs.any (fun c => pyEq (.str s) c) then .ok (.str s)
    else .error (.argType ("invalid choice: " ++ pyRepr (.str s)))
  | .opt inner, s => decodeCLI jloads inner s
  | .list e, s => parse_list e s
  | .tuple es, s => parse_tuple es s
  | .dict keyT valT, s => parse_dict jloads keyT valT s
  | .dictD keyT _ _, s => parse_dictD jloads keyT s
  | .listL _, s => parse_listL s
  | .record _, _ => .error (.typeErr "record kinds are not decoded from a single token")
  | .listRec _, _ => .error (.typeErr "compound-of-record kinds are not decoded from a single token")
  | .tupleRec _, _ => .error (.typeErr "compound-of-record kinds are not decoded from a single token")

/-! Concrete schemas used by the verified properties. -/

/-- The `Outer { inner : Inner { x : int = 1, y : str = "foo" }, z : float = 3.14 }`
schema of the specification (3.14 is the rational the decimal literal
denotes). -/
def envOuter : Env := [
  ("Inner", [⟨"x", .scalar .int, .int 1⟩, ⟨"y", .scalar .str, .str "foo"⟩]),
  ("Outer", [⟨"inner", .record "Inner", .inst "Inner" [("x", .int 1), ("y", .str "foo")]⟩,
             ⟨"z", .scalar .float, .float (157 / 50)⟩])]

/-- A depth-2 schema whose mid-level `inner` default instance
(`InnerD(x=99)`) differs from the leaf default (`x = 1`). -/
def envDeep : Env := [
  ("InnerD", [⟨"x", .scalar .int, .int 1⟩]),
  ("MidD", [⟨"inner", .record "InnerD", .inst "InnerD" [("x", .int 99)]⟩,
            ⟨"w", .scalar .int, .int 2⟩]),
  ("OuterD", [⟨"mid", .record "MidD",
      .inst "MidD" [("inner", .inst "InnerD" [("x", .int 99)]), ("w", .int 2)]⟩])]

/-- A record with two required scalar leaves. -/
def envReq : Env := [("Rec", [⟨"a", .scalar .int, .missing⟩, ⟨"b", .scalar .int, .missing⟩])]

/-- A record with a required nested record whose leaves are required. -/
def envReqNested : Env := [
  ("InnerQ", [⟨"a", .scalar .int, .missing⟩, ⟨"b", .scalar .int, .missing⟩]),
  ("OuterQ", [⟨"inner", .record "InnerQ", .missing⟩])]

/-- A single dataclass named `Config`, for flag-collision behavior. -/
def envFlag : Env := [("Config", [⟨"name", .scalar .str, .str "x"⟩])]

/-- A schema with one tuple-of-ints field defaulting to `(1, 2)`. -/
def envTup : Env := [("TupCfg", [⟨"t", .tuple [.int, .int], .tuple [.int 1, .int 2]⟩])]

/-! Verified properties. -/

/-- C6: tuple decoding fails with an arity-mismatch decode error naming
the expected and actual segment counts whenever the comma-separated
segment count differs from the declared element count, and otherwise
returns the positionally decoded tuple (with element failures wrapped in
the same decode-error shape); in particular `"1,2"` against
`(int,int,int)` fails naming 3 and 2, and `"1,2,3"` decodes to
`(1, 2, 3)`. -/
theorem tuple_arity_mismatch_and_positional_decode :
    (∀ (elems : List Scalar) (s0 : String),
      (commaItems (stripWrap "(" ")" s0)).length ≠ elems.length →
      parse_tuple elems s0 = .error (.argType ("Invalid tuple value: " ++
        stripWrap "(" ")" s0 ++ " (" ++
        ("Expected " ++ toString elems.length ++ " values, got " ++
          toString (commaItems (stripWrap "(" ")" s0)).length) ++ ")"))) ∧
    (∀ (elems : List Scalar) (s0 : String),
      (commaItems (stripWrap "(" ")" s0)).length = elems.length →
      parse_tuple elems s0 =
        match convertItems ((commaItems (stripWrap "(" ")" s0)).zip elems) with
        | .ok vals => .ok (.tuple vals)
        | .error e => .error (.argType ("Invalid tuple value: " ++
            stripWrap "(" ")" s0 ++ " (" ++ e.msg ++ ")"))) ∧
    parse_tuple [.int, .int, .int] ("1,2") =
      .error (.argType ("Invalid tuple value: 1,2 (Expected 3 values, got 2)")) ∧
    parse_tuple [.int, .int, .int] ("1,2,3") = .ok (.tuple [.int 1, .int 2, .int 3]) := by
  refine ⟨?_, ?_, rfl, rfl⟩
  · intro elems s0 h
    simp only [parse_tuple]
    rw [if_pos h]
    rfl
  · intro elems s0 h
    simp only [parse_tuple]
    rw [if_neg (by omega)]
    cases hc : convertItems ((commaItems (stripWrap "(" ")" s0)).zip elems) <;> simp [hc]

/-- C6 witness: the arity branch applied at `(int,int,int)` and `"1,2"`. -/
theorem tuple_arity_mismatch_witness :
    parse_tuple [.int, .int, .int] ("1,2") =
      .error (.argType ("Invalid tuple value: 1,2 (Expected 3 values, got 2)")) :=
  tuple_arity_mismatch_and_positional_decode.1 [.int, .int, .int] ("1,2") (by decide)

/-- C7: against `Mapping(Str, Int)`, the flat token `"k1=1,k2=2"` decodes
to the mapping `{k1: 1, k2: 2}`, `"k1=1.5"` fails with a decode error
rejecting (not truncating) the float, and the empty string decodes to the
empty mapping — for every JSON loader, since none of these tokens reaches
the JSON branch. -/
theorem dict_flat_decode_strictness :
    (∀ jloads, parse_dict jloads .str .int ("k1=1,k2=2") =
      .ok (.dict [(.str "k1", .int 1), (.str "k2", .int 2)])) ∧
    (∀ jloads, parse_dict jloads .str .int ("k1=1.5") =
      .error (.argType ("Expected int for value, got float: \x271.5\x27"))) ∧
    (∀ jloads, parse_dict jloads .str .int ("") = .ok (.dict [])) :=
  ⟨fun _ => rfl, fun _ => rfl, fun _ => rfl⟩

/-- `_strict_bool` returns `True` exactly on the three true spellings. -/
theorem strict_bool_ok_true_iff (s : String) :
    strict_bool s = .ok true ↔ (s = "True" ∨ s = "true" ∨ s = "1") := by
  constructor
  · intro h
    unfold strict_bool at h
    split_ifs at h with h1 h2
    · simp only [Bool.or_eq_true, beq_iff_eq] at h1
      tauto
    · simp at h
  · intro h
    have h1 : (s == "True" || s == "true" || s == "1") = true := by
      rcases h with h | h | h <;> simp [h]
    unfold strict_bool
    rw [if_pos h1]

/-- `_strict_bool` returns `False` exactly on the three false spellings. -/
theorem strict_bool_ok_false_iff (s : String) :
    strict_bool s = .ok false ↔ (s = "False" ∨ s = "false" ∨ s = "0") := by
  constructor
  · intro h
    unfold strict_bool at h
    split_ifs at h with h1 h2
    · simp at h
    · simp only [Bool.or_eq_true, beq_iff_eq] at h2
      tauto
  · intro h
    have h2 : (s == "False" || s == "false" || s == "0") = true := by
      rcases h with h | h | h <;> simp [h]
    have h1 : ¬(s == "True" || s == "true" || s == "1") = true := by
      rcases h with h | h | h <;> subst h <;> decide
    unfold strict_bool
    rw [if_neg h1, if_pos h2]

/-- `_strict_bool` rejects exactly the strings outside the six-element
set. -/
theorem strict_bool_error_iff (s : String) :
    (∃ e, strict_bool s = .error e) ↔
      ¬(s = "True" ∨ s = "true" ∨ s = "1" ∨ s = "False" ∨ s = "false" ∨ s = "0") := by
  constructor
  · rintro ⟨e, he⟩ hcon
    rcases hcon with h | h | h | h | h | h
    · rw [(strict_bool_ok_true_iff s).mpr (Or.inl h)] at he; simp at he
    · rw [(strict_bool_ok_true_iff s).mpr (Or.inr (Or.inl h))] at he; simp at he
    · rw [(strict_bool_ok_true_iff s).mpr (Or.inr (Or.inr h))] at he; simp at he
    · rw [(strict_bool_ok_false_iff s).mpr (Or.inl h)] at he; simp at he
    · rw [(strict_bool_ok_false_iff s).mpr (Or.inr (Or.inl h))] at he; simp at he
    · rw [(strict_bool_ok_false_iff s).mpr (Or.inr (Or.inr h))] at he; simp at he
  · intro hcon
    unfold strict_bool
    split_ifs with h1 h2
    · exfalso
      apply hcon
      simp only [Bool.or_eq_true, beq_iff_eq] at h1
      tauto
    · exfalso
      apply hcon
      simp only [Bool.or_eq_true, beq_iff_eq] at h2
      tauto
    · exact ⟨_, rfl⟩

/-- The validator accepts a Bool-kind value exactly when it is the
`MISSING` sentinel or an exact Python bool. -/
theorem validate_bool_iff (v : PyVal) (name : String) :
    validate_type v (.scalar .bool) name = .ok () ↔ (v = .missing ∨ ∃ b, v = .bool b) := by
  cases v <;> simp [validate_type, scalarValidate, PyVal.isMissing]

/-- C8: CLI Bool decoding accepts exactly the six strings
`True, true, 1, False, false, 0` and rejects every other string, while a
file- or default-sourced Bool value must be exactly boolean-typed, so
native `0` / `1` raise a type-mismatch error. -/
theorem bool_provenance_asymmetry :
    (∀ s : String, strict_bool s = .ok true ↔ (s = "True" ∨ s = "true" ∨ s = "1")) ∧
    (∀ s : String, strict_bool s = .ok false ↔ (s = "False" ∨ s = "false" ∨ s = "0")) ∧
    (∀ s : String, (∃ e, strict_bool s = .error e) ↔
      ¬(s = "True" ∨ s = "true" ∨ s = "1" ∨ s = "False" ∨ s = "false" ∨ s = "0")) ∧
    (∀ (v : PyVal) (name : String),
      validate_type v (.scalar .bool) name = .ok () ↔ (v = .missing ∨ ∃ b, v = .bool b)) ∧
    (∀ name : String,
      validate_type (.int 0) (.scalar .bool) name =
        .error (.typeErr (fieldErr name ("bool") (.int 0))) ∧
      validate_type (.int 1) (.scalar .bool) name =
        .error (.typeErr (fieldErr name ("bool") (.int 1)))) :=
  ⟨strict_bool_ok_true_iff, strict_bool_ok_false_iff, strict_bool_error_iff,
   validate_bool_iff, fun _ => ⟨rfl, rfl⟩⟩

/-- C8 witness: the CLI acceptance applied at `"true"`, the validator
equivalence applied at `True`. -/
theorem bool_provenance_asymmetry_witness :
    strict_bool ("true") = .ok true ∧
    validate_type (.bool true) (.scalar .bool) ("f") = .ok () :=
  ⟨(bool_provenance_asymmetry.1 ("true")).mpr (Or.inr (Or.inl rfl)),
   (bool_provenance_asymmetry.2.2.2.1 (.bool true) ("f")).mpr (Or.inr ⟨true, rfl⟩)⟩

/-- C2: for a scalar leaf field, a supplied (non-`None`) CLI entry wins
regardless of any file entry; with no CLI entry a file entry wins over the
default; with neither, the default stands. -/
theorem scalar_leaf_precedence :
    (∀ (env : Env) (fuel : Nat) (f : FieldDesc) (argKey : String) (cfgSec : PyVal)
        (pa : List (String × PyVal)) (sc : Scalar) (v : PyVal),
      f.kind = .scalar sc → paLookup pa argKey = some v → v.isNone = false →
      resolve_field_value env fuel f argKey cfgSec pa = .ok v) ∧
    (∀ (env : Env) (fuel : Nat) (f : FieldDesc) (argKey : String) (cfgSec : PyVal)
        (pa : List (String × PyVal)) (sc : Scalar),
      f.kind = .scalar sc → cliPresent pa argKey = false → cfgMember cfgSec f.fname = true →
      resolve_field_value env fuel f argKey cfgSec pa = .ok (cfgGet cfgSec f.fname)) ∧
    (∀ (env : Env) (fuel : Nat) (f : FieldDesc) (argKey : String) (cfgSec : PyVal)
        (pa : List (String × PyVal)) (sc : Scalar),
      f.kind = .scalar sc → cliPresent pa argKey = false → cfgMember cfgSec f.fname = false →
      resolve_field_value env fuel f argKey cfgSec pa = .ok f.dflt) := by
  refine ⟨?_, ?_, ?_⟩
  · intro env fuel f argKey cfgSec pa sc v hk hl hn
    simp [resolve_field_value, hk, hl, hn]
  · intro env fuel f argKey cfgSec pa sc hk hcli hcfg
    unfold cliPresent at hcli
    cases hl : paLookup pa argKey with
    | none => simp [resolve_field_value, hk, hl, hcfg]
    | some w =>
      rw [hl] at hcli
      simp only [Bool.not_eq_true'] at hcli
      simp [resolve_field_value, hk, hl, hcli, hcfg]
  · intro env fuel f argKey cfgSec pa sc hk hcli hcfg
    unfold cliPresent at hcli
    cases hl : paLookup pa argKey with
    | none => simp [resolve_field_value, hk, hl, hcfg]
    | some w =>
      rw [hl] at hcli
      simp only [Bool.not_eq_true'] at hcli
      simp [resolve_field_value, hk, hl, hcli, hcfg]

/-- C2 witness: the three precedence outcomes on a concrete field. -/
theorem scalar_leaf_precedence_witness :
    resolve_field_value [] 0 ⟨"a", .scalar .int, .int 7⟩ ("R.a")
      (.dict [(.str "a", .int 5)]) [("R.a", .int 3)] = .ok (.int 3) ∧
    resolve_field_value [] 0 ⟨"a", .scalar .int, .int 7⟩ ("R.a")
      (.dict [(.str "a", .int 5)]) [("R.a", PyVal.none)] = .ok (.int 5) ∧
    resolve_field_value [] 0 ⟨"a", .scalar .int, .int 7⟩ ("R.a")
      (.dict []) [("R.a", PyVal.none)] = .ok (.int 7) :=
  ⟨scalar_leaf_precedence.1 [] 0 ⟨"a", .scalar .int, .int 7⟩ ("R.a")
      (.dict [(.str "a", .int 5)]) [("R.a", .int 3)] .int (.int 3) rfl rfl rfl,
   scalar_leaf_precedence.2.1 [] 0 ⟨"a", .scalar .int, .int 7⟩ ("R.a")
      (.dict [(.str "a", .int 5)]) [("R.a", PyVal.none)] .int rfl rfl rfl,
   scalar_leaf_precedence.2.2 [] 0 ⟨"a", .scalar .int, .int 7⟩ ("R.a")
      (.dict []) [("R.a", PyVal.none)] .int rfl rfl rfl⟩

/-- The argparse namespace for `envReq` with no command line. -/
def paReq : List (String × PyVal) := mkPA (topDeclared envReq 1 ["Rec"]) []

/-- C5: on a missing-required failure, `parse` raises the `SystemExit` of
`argparse.ArgumentParser.error`, and `safe_parse`'s `except Exception`
does not catch it — the process terminates instead of receiving an `Err`
result. -/
theorem safe_parse_systemexit_escapes :
    parseResult envReq 1 ["Rec"] paReq (.dict []) ("config") =
      .error (.sysExit (missingMsg "Rec" ["--Rec.a", "--Rec.b"])) ∧
    safe_parse envReq 1 ["Rec"] paReq (.dict []) ("config") =
      .terminated (missingMsg "Rec" ["--Rec.a", "--Rec.b"]) ∧
    (PyErr.sysExit (missingMsg "Rec" ["--Rec.a", "--Rec.b"])).isException = false :=
  ⟨rfl, rfl, rfl⟩

/-- The argparse namespace for `envDeep` with only `--OuterD.mid.w 5`. -/
def paDeep : List (String × PyVal) :=
  mkPA (topDeclared envDeep 3 ["OuterD"]) [("OuterD.mid.w", .int 5)]

/-- C1 counterexample: no CLI entry lies (non-absent) strictly under
`OuterD.mid.inner` and there is no file input, yet the resolved `inner` is
the re-merged `InnerD(x=1)` — the leaf default — not the field's
default-factory instance `InnerD(x=99)`. -/
theorem nested_default_discarded_at_depth_two :
    (paDeep.any (fun kv => pyStartsWith kv.1 ("OuterD.mid.inner.") && !kv.2.isNone)) = false ∧
    build_instance envDeep 3 "OuterD" paDeep (.dict []) =
      .ok (.inst "OuterD" [("mid", .inst "MidD"
        [("inner", .inst "InnerD" [("x", .int 1)]), ("w", .int 5)])]) ∧
    (PyVal.inst "InnerD" [("x", .int 1)]) ≠ .inst "InnerD" [("x", .int 99)] :=
  ⟨rfl, rfl, by simp⟩

/-- C1 amended: override gating holds at the record's own boundary — the
spec's `Outer` example resolves per leaf with the sibling default and the
untouched sibling subtree, and a depth-1 record field with no override
anywhere keeps its default/factory instance exactly; but inside a promoted
subtree, deeper record fields are re-merged per leaf unconditionally (the
depth-2 behavior of the counterexample). -/
theorem nested_override_gating_at_depth_one :
    (∀ n : Int,
      build_instance envOuter 3 "Outer"
        (mkPA (topDeclared envOuter 3 ["Outer"]) [("Outer.inner.x", .int n)]) (.dict []) =
      .ok (.inst "Outer" [("inner", .inst "Inner" [("x", .int n), ("y", .str "foo")]),
        ("z", .float (157 / 50))])) ∧
    build_instance envDeep 3 "OuterD" (mkPA (topDeclared envDeep 3 ["OuterD"]) []) (.dict []) =
      .ok (.inst "OuterD" [("mid", .inst "MidD"
        [("inner", .inst "InnerD" [("x", .int 99)]), ("w", .int 2)])]) ∧
    (∀ (env : Env) (fuel : Nat) (f : FieldDesc) (argKey : String) (cfgSec : PyVal)
        (pa : List (String × PyVal)) (cls : String),
      f.kind = .record cls →
      cliPresent pa argKey = false →
      cfgMember cfgSec f.fname = false →
      (pa.any (fun kv => pyStartsWith kv.1 (argKey ++ ".") && !kv.2.isNone)) = false →
      configHasOverride (match cfgSec with
        | .dict _ => cfgGetD cfgSec f.fname (.dict [])
        | _ => .dict []) = false →
      resolve_field_value env fuel f argKey cfgSec pa = .ok f.dflt) := by
  refine ⟨fun n => rfl, rfl, ?_⟩
  intro env fuel f argKey cfgSec pa cls hk hcli hcfg hany hcov
  unfold cliPresent at hcli
  cases hl : paLookup pa argKey with
  | none => simp [resolve_field_value, hk, hl, hcfg, hany, hcov]
  | some w =>
    rw [hl] at hcli
    simp only [Bool.not_eq_true'] at hcli
    simp [resolve_field_value, hk, hl, hcli, hcfg, hany, hcov]

/-- C1 amended witness: the gating conjunct applied at a concrete
no-override record field. -/
theorem nested_override_gating_witness :
    resolve_field_value envOuter 3
      ⟨"inner", .record "Inner", .inst "Inner" [("x", .int 1), ("y", .str "foo")]⟩
      ("Outer.inner") (.dict []) [("Outer.inner.x", PyVal.none)] =
      .ok (.inst "Inner" [("x", .int 1), ("y", .str "foo")]) :=
  nested_override_gating_at_depth_one.2.2 envOuter 3
    ⟨"inner", .record "Inner", .inst "Inner" [("x", .int 1), ("y", .str "foo")]⟩
    ("Outer.inner") (.dict []) [("Outer.inner.x", PyVal.none)] ("Inner") rfl rfl rfl rfl rfl

theorem isMissing_eq (v : PyVal) : v.isMissing = true ↔ v = .missing := by
  cases v <;> simp [PyVal.isMissing]

theorem validate_missing (kind : TypeKind) (n : String) :
    validate_type .missing kind n = .ok () := by
  cases kind <;> rfl

/-- Whether a field's resolution step produced the `MISSING` sentinel. -/
def stepMissing (env : Env) (fuel : Nat) (cls : String) (cfgSec : PyVal)
    (pa : List (String × PyVal)) (f : FieldDesc) : Bool :=
  match fieldStep env fuel cls cfgSec pa f with
  | .ok v => v.isMissing
  | .error _ => false

/-- When every field's step succeeds, the build loop collects exactly the
missing fields, in declaration order. -/
theorem buildFields_all_ok (env : Env) (fuel : Nat) (cls : String) (cfgSec : PyVal)
    (pa : List (String × PyVal)) :
    ∀ fields : List FieldDesc,
    (∀ f ∈ fields, ∃ v, fieldStep env fuel cls cfgSec pa f = .ok v) →
    ∃ vals, buildFields env fuel cls cfgSec pa fields =
      .ok (vals, (fields.filter (fun f => stepMissing env fuel cls cfgSec pa f)).map
        (fun f => "--" ++ cls ++ "." ++ f.fname)) := by
  intro fields
  induction fields with
  | nil => exact fun _ => ⟨[], rfl⟩
  | cons f fs ih =>
    intro hall
    obtain ⟨v, hv⟩ := hall f (List.mem_cons_self f fs)
    obtain ⟨vals, hrest⟩ := ih (fun g hg => hall g (List.mem_cons_of_mem f hg))
    by_cases hm : v.isMissing = true
    · refine ⟨vals, ?_⟩
      simp [buildFields, hv, hrest, hm, List.filter_cons, stepMissing]
    · refine ⟨(f.fname, v) :: vals, ?_⟩
      simp [buildFields, hv, hrest, hm, List.filter_cons, stepMissing]

/-- A non-record field with no default, no CLI entry and no file entry
steps to `MISSING`. -/
theorem fieldStep_required_absent (env : Env) (fuel : Nat) (cls : String)
    (cfgSec : PyVal) (pa : List (String × PyVal)) (f : FieldDesc) :
    f.dflt.isMissing = true →
    (∀ c, f.kind ≠ .record c) →
    cliPresent pa (cls ++ "." ++ f.fname) = false →
    cfgMember cfgSec f.fname = false →
    fieldStep env fuel cls cfgSec pa f = .ok .missing := by
  intro hdflt hrec hcli hcfg
  have hd : f.dflt = .missing := (isMissing_eq f.dflt).mp hdflt
  have hres : resolve_field_value env fuel f (cls ++ "." ++ f.fname) cfgSec pa =
      .ok .missing := by
    unfold cliPresent at hcli
    cases hk : f.kind <;> try (exact absurd hk (hrec _))
    all_goals
      cases hl : paLookup pa (cls ++ "." ++ f.fname) with
      | none => simp [resolve_field_value, hk, hl, hcfg, hd]
      | some w =>
        rw [hl] at hcli
        simp only [Bool.not_eq_true'] at hcli
        simp [resolve_field_value, hk, hl, hcli, hcfg, hd]
  have hhandle : handle_field_type env .missing f.kind = .ok .missing := by
    cases f.kind <;> simp [handle_field_type]
  unfold fieldStep
  simp [hres, hhandle, validate_missing]

/-- C3 amended: a required non-record leaf absent from CLI and file
resolves to `MISSING`; when every field's step succeeds and at least one
is `MISSING`, the record fails once with one aggregated error naming
every missing field path at that boundary; in particular a flat record
with required `a` and `b` fails naming both `--Rec.a` and `--Rec.b`.  (A
required nested-record field with no override is reported by its record
path, not expanded to its leaf paths — the counterexample.) -/
theorem missing_required_aggregated_per_record :
    (∀ (env : Env) (fuel : Nat) (cls : String) (cfgSec : PyVal)
        (pa : List (String × PyVal)) (f : FieldDesc),
      f.dflt.isMissing = true →
      (∀ c, f.kind ≠ .record c) →
      cliPresent pa (cls ++ "." ++ f.fname) = false →
      cfgMember cfgSec f.fname = false →
      fieldStep env fuel cls cfgSec pa f = .ok .missing) ∧
    (∀ (env : Env) (fuel : Nat) (cls : String) (fields : List FieldDesc)
        (pa : List (String × PyVal)) (configData : PyVal),
      envFields env cls = some fields →
      (∀ f ∈ fields, ∃ v, fieldStep env fuel cls (cfgSection configData cls) pa f = .ok v) →
      (fields.filter (fun f => stepMissing env fuel cls (cfgSection configData cls) pa f)) ≠ [] →
      build_instance env fuel cls pa configData =
        .error (.sysExit (missingMsg cls
          ((fields.filter (fun f => stepMissing env fuel cls (cfgSection configData cls) pa f)).map
            (fun f => "--" ++ cls ++ "." ++ f.fname))))) ∧
    build_instance envReq 1 "Rec" paReq (.dict []) =
      .error (.sysExit (missingMsg "Rec" ["--Rec.a", "--Rec.b"])) := by
  refine ⟨fieldStep_required_absent, ?_, rfl⟩
  intro env fuel cls fields pa configData henv hall hne
  obtain ⟨vals, hbf⟩ := buildFields_all_ok env fuel cls (cfgSection configData cls) pa fields hall
  have hmt : ((fields.filter (fun f => stepMissing env fuel cls (cfgSection configData cls) pa f)).map
      (fun f => "--" ++ cls ++ "." ++ f.fname)).isEmpty = false := by
    cases hfe : fields.filter (fun f => stepMissing env fuel cls (cfgSection configData cls) pa f) with
    | nil => exact absurd hfe hne
    | cons a l => simp
  simp only [build_instance, henv]
  rw [hbf]
  simp [hmt]

/-- C3 amended witness: the aggregation applied to the concrete
two-required-field record. -/
theorem missing_required_aggregated_witness :
    build_instance envReq 1 "Rec" paReq (.dict []) =
      .error (.sysExit (missingMsg "Rec" ["--Rec.a", "--Rec.b"])) := by
  have h := missing_required_aggregated_per_record.2.1 envReq 1 ("Rec")
    [⟨"a", .scalar .int, .missing⟩, ⟨"b", .scalar .int, .missing⟩] paReq (.dict [])
    rfl
    (by
      intro f hf
      simp only [List.mem_cons, List.not_mem_nil, or_false] at hf
      rcases hf with rfl | rfl
      · exact ⟨.missing, rfl⟩
      · exact ⟨.missing, rfl⟩)
    (by
      intro h
      rw [show List.filter
        (fun f => stepMissing envReq 1 ("Rec") (cfgSection (.dict []) ("Rec")) paReq f)
        [(⟨"a", .scalar .int, .missing⟩ : FieldDesc), ⟨"b", .scalar .int, .missing⟩] =
        [(⟨"a", .scalar .int, .missing⟩ : FieldDesc), ⟨"b", .scalar .int, .missing⟩] from rfl] at h
      cases h)
  exact h

/-- The argparse namespace for `envReqNested` with no command line. -/
def paReqNested : List (String × PyVal) := mkPA (topDeclared envReqNested 2 ["OuterQ"]) []

/-- C3 counterexample: `InnerQ`'s required leaves `a` and `b` are absent
from both CLI and file input, yet the single error names only the record
path `--OuterQ.inner` — neither missing leaf path appears in it. -/
theorem missing_nested_record_reported_by_record_path :
    allNone paReqNested = true ∧
    envFields envReqNested ("InnerQ") =
      some [⟨"a", .scalar .int, .missing⟩, ⟨"b", .scalar .int, .missing⟩] ∧
    build_instance envReqNested 2 "OuterQ" paReqNested (.dict []) =
      .error (.sysExit (missingMsg "OuterQ" ["--OuterQ.inner"])) ∧
    strContains (missingMsg "OuterQ" ["--OuterQ.inner"]) ("--OuterQ.inner.a") = false ∧
    strContains (missingMsg "OuterQ" ["--OuterQ.inner"]) ("--OuterQ.inner.b") = false :=
  ⟨rfl, rfl, rfl, by decide, by decide⟩

theorem find_k_map_ins (k2 k : String) (v2 : PyVal) (hne : k2 ≠ k) :
    ∀ ps : List (String × PyVal),
    List.find? (fun p => p.1 == k) (ps.map (fun p => if p.1 == k2 then (p.1, v2) else p)) =
      List.find? (fun p => p.1 == k) ps := by
  intro ps
  induction ps with
  | nil => rfl
  | cons q qs ih =>
    rw [List.map_cons]
    by_cases hqk : (q.1 == k) = true
    · have hq1 : q.1 = k := by simpa [beq_iff_eq] using hqk
      have hq2 : (q.1 == k2) = false := by
        rw [hq1]
        exact beq_eq_false_iff_ne.mpr (Ne.symm hne)
      rw [if_neg (by simp [hq2])]
      simp only [List.find?_cons, hqk]
    · have hqkf : (q.1 == k) = false := by
        cases hb : q.1 == k
        · rfl
        · exact absurd hb hqk
      by_cases hq2 : (q.1 == k2) = true
      · rw [if_pos hq2]
        simp only [List.find?_cons, hqkf]
        exact ih
      · rw [if_neg hq2]
        simp only [List.find?_cons, hqkf]
        exact ih

theorem find_k_append_ne (k2 k : String) (v2 : PyVal) (hne : k2 ≠ k) :
    ∀ ps : List (String × PyVal),
    List.find? (fun p => p.1 == k) (ps ++ [(k2, v2)]) =
      List.find? (fun p => p.1 == k) ps := by
  intro ps
  induction ps with
  | nil =>
    rw [List.nil_append]
    simp only [List.find?_cons, beq_eq_false_iff_ne.mpr hne]
  | cons q qs ih =>
    rw [List.cons_append]
    by_cases hqk : (q.1 == k) = true
    · simp only [List.find?_cons, hqk]
    · have hqkf : (q.1 == k) = false := by
        cases hb : q.1 == k
        · rfl
        · exact absurd hb hqk
      simp only [List.find?_cons, hqkf]
      exact ih

theorem findMap_self (k : String) (v : PyVal) :
    ∀ r : List (String × PyVal), r.any (fun p => p.1 == k) = true →
    ((r.map (fun p => if p.1 == k then (p.1, v) else p)).find?
      (fun p => p.1 == k)).map (fun p => p.2) = some v := by
  intro r
  induction r with
  | nil => intro h; simp at h
  | cons p ps ih =>
    intro h
    rw [List.map_cons]
    by_cases hp : (p.1 == k) = true
    · rw [if_pos hp]
      simp only [List.find?_cons, hp]
      rfl
    · have hpf : (p.1 == k) = false := by
        cases hb : p.1 == k
        · rfl
        · exact absurd hb hp
      rw [List.any_cons] at h
      simp only [hpf, Bool.false_or] at h
      rw [if_neg hp]
      simp only [List.find?_cons, hpf]
      exact ih h

theorem findAppend_self (k : String) (v : PyVal) :
    ∀ r : List (String × PyVal), r.any (fun p => p.1 == k) = false →
    ((r ++ [(k, v)]).find? (fun p => p.1 == k)).map (fun p => p.2) = some v := by
  intro r
  induction r with
  | nil =>
    intro _
    rw [List.nil_append]
    simp only [List.find?_cons, beq_self_eq_true]
    rfl
  | cons p ps ih =>
    intro h
    rw [List.any_cons] at h
    simp only [Bool.or_eq_false_iff] at h
    rw [List.cons_append]
    simp only [List.find?_cons, h.1]
    exact ih h.2

/-- Insertion stores the value under its key. -/
theorem strInsert_lookup_self (r : List (String × PyVal)) (k : String) (v : PyVal) :
    lookupStr (strInsert r k v) k = some v := by
  unfold strInsert lookupStr
  split_ifs with h
  · exact findMap_self k v r h
  · have hfalse : r.any (fun p => p.1 == k) = false := by
      cases hb : r.any (fun p => p.1 == k)
      · rfl
      · exact absurd hb h
    exact findAppend_self k v r hfalse

/-- Insertion under a different key does not change a lookup. -/
theorem strInsert_lookup_ne (r : List (String × PyVal)) (k2 k : String) (v2 : PyVal)
    (hne : k2 ≠ k) : lookupStr (strInsert r k2 v2) k = lookupStr r k := by
  unfold strInsert lookupStr
  split_ifs with h
  · rw [find_k_map_ins k2 k v2 hne r]
  · rw [find_k_append_ne k2 k v2 hne r]

/-- The passthrough fold leaves keys it never visits unchanged. -/
theorem foldl_passStep_no_key (names : List String) (configDest k : String) :
    ∀ (pa : List (String × PyVal)) (acc : List (String × PyVal)),
    ((pa.map (fun kv => kv.1)).contains k) = false →
    lookupStr (pa.foldl (passStep names configDest) acc) k = lookupStr acc k := by
  intro pa
  induction pa with
  | nil => intro acc _; rfl
  | cons kv rest ih =>
    intro acc h
    rw [List.map_cons] at h
    have h1 : (k == kv.1) = false ∧ ((rest.map (fun kv => kv.1)).contains k) = false := by
      simpa [List.contains_cons, Bool.or_eq_false_iff] using h
    rw [List.foldl_cons, ih _ h1.2]
    unfold passStep
    split_ifs with hc
    · exact strInsert_lookup_ne acc kv.1 k _
        (Ne.symm (beq_eq_false_iff_ne.mp h1.1))
    · rfl

/-- A parsed entry whose key is unique, is not a top-level dataclass field
name and is not the config destination ends up in the fold's result under
its own key. -/
theorem foldl_passStep_mem (names : List String) (configDest k : String) (v : PyVal) :
    ∀ (pa : List (String × PyVal)) (acc : List (String × PyVal)),
    nodupStr (pa.map (fun kv => kv.1)) = true →
    (k, v) ∈ pa →
    names.contains k = false →
    k ≠ configDest →
    lookupStr (pa.foldl (passStep names configDest) acc) k = some v := by
  intro pa
  induction pa with
  | nil => intro acc _ hm _ _; exact absurd hm (List.not_mem_nil _)
  | cons kv rest ih =>
    intro acc hnd hm hnames hdest
    rw [List.map_cons] at hnd
    unfold nodupStr at hnd
    rw [Bool.and_eq_true] at hnd
    have hnd1 : ((rest.map (fun kv => kv.1)).contains kv.1) = false := by
      cases hb : (rest.map (fun kv => kv.1)).contains kv.1
      · rfl
      · rw [hb] at hnd; simp at hnd
    rw [List.foldl_cons]
    rcases List.mem_cons.mp hm with heq | hmem
    · have hk : kv.1 = k := by rw [← heq]
      have hv : kv.2 = v := by rw [← heq]
      rw [foldl_passStep_no_key names configDest k rest _ (by rw [← hk]; exact hnd1)]
      unfold passStep
      have hkm : k ∉ names := by
        intro hmem
        rw [show names.contains k = List.elem k names from rfl,
          List.elem_eq_true_of_mem hmem] at hnames
        cases hnames
      rw [if_pos (by simp [hk, hkm, hdest])]
      rw [hk, hv]
      exact strInsert_lookup_self acc k v
    · exact ih (passStep names configDest acc kv) hnd.2 hmem hnames hdest

/-- C9 counterexample: declaring the flag `--Config` — colliding with the
top-level record alias `Config` — raises no error at parser construction. -/
theorem alias_flag_accepted_at_configuration :
    mkParser envFlag 1 ["Config"] ["--Config"] ("--config") =
      .ok ["--config", "--Config", "--Config.name"] := rfl

/-- C9 amended: `add_flag` rejects exactly the already-registered option
strings; a parsed key that is neither a top-level `<Alias>.<field>` name
nor the config destination passes through into the result mapping under
its own (unique) key; and a flag named after a record alias is accepted
and its parsed value overwrites the record's assembled instance in the
result. -/
theorem flag_passthrough_and_alias_overwrite :
    (∀ (registered : List String) (n : String), registered.contains n = true →
      add_flag registered n = .error (.valueErr ("Flag name conflict: " ++ n))) ∧
    (∀ (registered : List String) (n : String), registered.contains n = false →
      add_flag registered n = .ok (registered ++ [n])) ∧
    (∀ (env : Env) (fuel : Nat) (types : List String) (pa : List (String × PyVal))
        (configData : PyVal) (configDest k : String) (v : PyVal)
        (r : List (String × PyVal)),
      parseResult env fuel types pa configData configDest = .ok r →
      nodupStr (pa.map (fun kv => kv.1)) = true →
      (k, v) ∈ pa →
      (dcFieldNames env types).contains k = false →
      k ≠ configDest →
      lookupStr r k = some v) ∧
    parseResult envFlag 1 ["Config"] [("Config.name", PyVal.none), ("Config", .bool true)]
      (.dict []) ("config") = .ok [("Config", .bool true)] := by
  refine ⟨?_, ?_, ?_, rfl⟩
  · intro registered n h
    unfold add_flag
    rw [if_pos h]
  · intro registered n h
    unfold add_flag
    have hnm : n ∉ registered := by
      intro hmem
      rw [show registered.contains n = List.elem n registered from rfl,
        List.elem_eq_true_of_mem hmem] at h
      cases h
    rw [if_neg (by simp [hnm])]
  · intro env fuel types pa configData configDest k v r hres hnd hm hnames hdest
    unfold parseResult at hres
    cases hpi : parseInstances env fuel pa configData types [] with
    | error e => rw [hpi] at hres; cases hres
    | ok r0 =>
      rw [hpi] at hres
      have hr : r = pa.foldl (passStep (dcFieldNames env types) configDest) r0 := by
        cases hres; rfl
      rw [hr]
      exact foldl_passStep_mem (dcFieldNames env types) configDest k v pa r0 hnd hm hnames hdest

/-- C9 amended witness: the passthrough conjunct applied at a concrete
non-schema flag. -/
theorem flag_passthrough_witness :
    lookupStr [("x", PyVal.int 5)] ("x") = some (.int 5) :=
  flag_passthrough_and_alias_overwrite.2.2.1 [] 0 [] [("x", .int 5)] (.dict []) ("config")
    ("x") (.int 5) [("x", .int 5)] rfl rfl (List.mem_singleton.mpr rfl) rfl (by decide)

/-! Decoder / Validator compatibility (C10). -/

/-- A successful scalar class call yields a value of that class. -/
theorem scalarCall_WT (typ : Scalar) (v w : PyVal) :
    scalarCall typ v = .ok w → scalarWT w typ = true := by
  intro h
  cases typ <;> cases v <;> simp only [scalarCall] at h <;>
    (try split at h) <;> (try cases h) <;> simp_all [scalarWT]

/-- A well-classed value passes the validator's basic-type chain. -/
theorem scalarWT_validate (w : PyVal) (t : Scalar) (name : String) :
    scalarWT w t = true → scalarValidate w t name = .ok () := by
  intro h
  cases t <;> cases w <;> simp_all [scalarWT, scalarValidate]

/-- A successful element conversion yields a value of the element class. -/
theorem convertItem_WT (typ : Scalar) (item : String) (w : PyVal) :
    convertItem typ item = .ok w → scalarWT w typ = true := by
  intro h
  simp only [convertItem] at h
  split at h
  · exact absurd h (by simp)
  · split at h
    · cases h
      exact scalarCall_WT _ _ _ (by assumption)
    · exact absurd h (by simp)

theorem validateElems_of_WT (e : Scalar) (name : String) :
    ∀ (vs : List PyVal) (i : Nat), vs.all (fun w => scalarWT w e) = true →
    validateElems e name i vs = .ok () := by
  intro vs
  induction vs with
  | nil => intro i _; rfl
  | cons w ws ih =>
    intro i h
    rw [List.all_cons, Bool.and_eq_true] at h
    unfold validateElems
    rw [scalarWT_validate w e _ h.1]
    exact ih (i + 1) h.2

theorem validateTupleElems_of_WT (name : String) :
    ∀ (ps : List (PyVal × Scalar)) (i : Nat),
    ps.all (fun p => scalarWT p.1 p.2) = true →
    validateTupleElems name i ps = .ok () := by
  intro ps
  induction ps with
  | nil => intro i _; rfl
  | cons p ps' ih =>
    intro i h
    rw [List.all_cons, Bool.and_eq_true] at h
    obtain ⟨w, sc⟩ := p
    unfold validateTupleElems
    rw [scalarWT_validate w sc _ h.1]
    exact ih (i + 1) h.2

/-- Successful positional conversion against zipped element classes:
the results align with the classes and keep their count. -/
theorem convertItems_zip_WT :
    ∀ (items : List String) (elems : List Scalar) (vs : List PyVal),
    items.length = elems.length →
    convertItems (items.zip elems) = .ok vs →
    vs.length = elems.length ∧ (vs.zip elems).all (fun p => scalarWT p.1 p.2) = true := by
  intro items
  induction items with
  | nil =>
    intro elems vs hlen h
    cases elems with
    | nil =>
      cases h
      exact ⟨rfl, rfl⟩
    | cons e es => cases hlen
  | cons item rest ih =>
    intro elems vs hlen h
    cases elems with
    | nil => cases hlen
    | cons e es =>
      rw [List.zip_cons_cons] at h
      unfold convertItems at h
      split at h
      · cases h
      · split at h
        · cases h
        · cases h
          have hlen2 : rest.length = es.length := by simpa using hlen
          obtain ⟨hl, ha⟩ := ih es _ hlen2 (by assumption)
          refine ⟨by simp [hl], ?_⟩
          rw [List.zip_cons_cons, List.all_cons, Bool.and_eq_true]
          exact ⟨convertItem_WT e item _ (by assumption), ha⟩

/-- Successful conversion of a homogeneous item list: every result has
the element class. -/
theorem convertItems_const_WT (e : Scalar) :
    ∀ (items : List String) (vs : List PyVal),
    convertItems (items.map (fun i => (i, e))) = .ok vs →
    vs.all (fun w => scalarWT w e) = true := by
  intro items
  induction items with
  | nil =>
    intro vs h
    cases h
    rfl
  | cons item rest ih =>
    intro vs h
    rw [List.map_cons] at h
    unfold convertItems at h
    split at h
    · cases h
    · split at h
      · cases h
      · cases h
        rw [List.all_cons, Bool.and_eq_true]
        exact ⟨convertItem_WT e item _ (by assumption), ih _ (by assumption)⟩

/-- A successfully converted mapping key has the declared key class. -/
theorem dictKeyConvert_WT (keyT : Scalar) (k : String) (w : PyVal) :
    dictKeyConvert keyT k = .ok w → scalarWT w keyT = true := by
  intro h
  cases keyT with
  | str =>
    simp only [dictKeyConvert] at h
    cases h
    rfl
  | int =>
    simp only [dictKeyConvert] at h
    split at h <;> cases h
    exact scalarCall_WT _ _ _ (by assumption)
  | float =>
    simp only [dictKeyConvert] at h
    split at h <;> cases h
    exact scalarCall_WT _ _ _ (by assumption)
  | bool =>
    simp only [dictKeyConvert] at h
    split at h <;> cases h
    exact scalarCall_WT _ _ _ (by assumption)

/-- A JSON-sourced mapping value passing the strict check has the declared
value class. -/
theorem jsonValConvert_WT (valT : Scalar) (v w : PyVal) :
    jsonValConvert valT v = .ok w → scalarWT w valT = true := by
  intro h
  cases valT <;> cases v <;> simp only [jsonValConvert] at h <;> (try cases h) <;>
    simp_all [scalarWT]

/-- A flat-syntax mapping value passing the strict check has the declared
value class. -/
theorem flatValConvert_WT (valT : Scalar) (value : String) (w : PyVal) :
    flatValConvert valT value = .ok w → scalarWT w valT = true := by
  intro h
  cases valT <;> simp only [flatValConvert] at h <;> (try split at h) <;>
    (try split_ifs at h) <;> (try cases h) <;> simp_all [scalarWT]

/-- Both mapping-entry components have their declared classes. -/
def entryOK (keyT valT : Scalar) (p : PyVal × PyVal) : Bool :=
  scalarWT p.1 keyT && scalarWT p.2 valT

theorem mapOverwrite_all (keyT valT : Scalar) (k v : PyVal)
    (hv : scalarWT v valT = true) :
    ∀ d : List (PyVal × PyVal), d.all (entryOK keyT valT) = true →
    (d.map (fun p => if pyEq p.1 k then (p.1, v) else p)).all (entryOK keyT valT) = true := by
  intro d
  induction d with
  | nil => intro _; rfl
  | cons p ps ih =>
    intro hd
    rw [List.all_cons, Bool.and_eq_true] at hd
    rw [List.map_cons, List.all_cons, Bool.and_eq_true]
    refine ⟨?_, ih hd.2⟩
    split_ifs with hp
    · have h1 := hd.1
      simp only [entryOK, Bool.and_eq_true] at h1 ⊢
      exact ⟨h1.1, hv⟩
    · exact hd.1

theorem dictInsert_all (keyT valT : Scalar) (d : List (PyVal × PyVal)) (k v : PyVal) :
    d.all (entryOK keyT valT) = true → scalarWT k keyT = true → scalarWT v valT = true →
    (dictInsert d k v).all (entryOK keyT valT) = true := by
  intro hd hk hv
  unfold dictInsert
  split_ifs with h
  · exact mapOverwrite_all keyT valT k v hv d hd
  · rw [List.all_append]
    simp [hd, entryOK, hk, hv]

theorem flatDictLoop_all (keyT valT : Scalar) :
    ∀ (rest : List String) (acc entries : List (PyVal × PyVal)),
    flatDictLoop keyT valT rest acc = .ok entries →
    acc.all (entryOK keyT valT) = true →
    entries.all (entryOK keyT valT) = true := by
  intro rest
  induction rest with
  | nil =>
    intro acc entries h hacc
    cases h
    exact hacc
  | cons pair rest2 ih =>
    intro acc entries h hacc
    unfold flatDictLoop at h
    split at h
    · cases h
    · split at h
      · cases h
      · split at h
        · cases h
        · exact ih _ entries h (dictInsert_all keyT valT acc _ _ hacc
            (dictKeyConvert_WT keyT _ _ (by assumption))
            (flatValConvert_WT valT _ _ (by assumption)))

theorem jsonDictLoop_all (keyT valT : Scalar) :
    ∀ (rest : List (String × PyVal)) (acc entries : List (PyVal × PyVal)),
    jsonDictLoop keyT valT rest acc = .ok entries →
    acc.all (entryOK keyT valT) = true →
    entries.all (entryOK keyT valT) = true := by
  intro rest
  induction rest with
  | nil =>
    intro acc entries h hacc
    cases h
    exact hacc
  | cons kv rest2 ih =>
    intro acc entries h hacc
    unfold jsonDictLoop at h
    split at h
    · cases h
    · split at h
      · cases h
      · exact ih _ entries h (dictInsert_all keyT valT acc _ _ hacc
          (dictKeyConvert_WT keyT _ _ (by assumption))
          (jsonValConvert_WT valT _ _ (by assumption)))

theorem validateDictEntries_of_all (keyT valT : Scalar) (name : String) :
    ∀ entries : List (PyVal × PyVal), entries.all (entryOK keyT valT) = true →
    validateDictEntries keyT valT name entries = .ok () := by
  intro entries
  induction entries with
  | nil => intro _; rfl
  | cons p ps ih =>
    intro h
    rw [List.all_cons, Bool.and_eq_true] at h
    have h1 := h.1
    simp only [entryOK, Bool.and_eq_true] at h1
    obtain ⟨k, v⟩ := p
    unfold validateDictEntries
    rw [scalarWT_validate k keyT _ h1.1, scalarWT_validate v valT _ h1.2]
    exact ih h.2

/-- Every value produced by a successful list decode passes list
validation. -/
theorem parse_list_validates (e : Scalar) (s0 : String) (v : PyVal) (name : String) :
    parse_list e s0 = .ok v → validate_type v (.list e) name = .ok () := by
  intro h
  simp only [parse_list] at h
  cases hc : convertItems ((commaItems (stripWrap "[" "]" s0)).map (fun item => (item, e))) with
  | error e2 =>
    simp only [hc] at h
    cases h
  | ok vals =>
    simp only [hc] at h
    cases h
    have ha := convertItems_const_WT e (commaItems (stripWrap "[" "]" s0)) vals hc
    simp only [validate_type, PyVal.isMissing]
    exact validateElems_of_WT e name vals 0 ha

/-- Every value produced by a successful tuple decode passes tuple
validation. -/
theorem parse_tuple_validates (elems : List Scalar) (s0 : String) (v : PyVal)
    (name : String) :
    parse_tuple elems s0 = .ok v → validate_type v (.tuple elems) name = .ok () := by
  intro h
  by_cases harity : (commaItems (stripWrap "(" ")" s0)).length ≠ elems.length
  · simp only [parse_tuple, if_pos harity] at h
    cases h
  · have hlen : (commaItems (stripWrap "(" ")" s0)).length = elems.length :=
      not_ne_iff.mp harity
    cases hc : convertItems ((commaItems (stripWrap "(" ")" s0)).zip elems) with
    | error e2 =>
      simp only [parse_tuple, if_neg harity, hc] at h
      cases h
    | ok vals =>
      simp only [parse_tuple, if_neg harity, hc] at h
      cases h
      obtain ⟨hl, ha⟩ := convertItems_zip_WT _ elems vals hlen hc
      simp only [validate_type, PyVal.isMissing]
      rw [if_neg (not_ne_iff.mpr hl)]
      exact validateTupleElems_of_WT name (vals.zip elems) 0 ha

/-- Every value produced by a successful mapping decode passes mapping
validation. -/
theorem parse_dict_validates (jloads : String → Except String (List (String × PyVal)))
    (keyT valT : Scalar) (s : String) (v : PyVal) (name : String) :
    parse_dict jloads keyT valT s = .ok v →
    validate_type v (.dict keyT valT) name = .ok () := by
  intro h
  unfold parse_dict at h
  split_ifs at h with h1 h2
  · cases h
    rfl
  · cases hj : jloads s with
    | error e2 =>
      simp only [hj] at h
      cases h
    | ok obj =>
      simp only [hj] at h
      unfold jsonDictConvert at h
      cases hl : jsonDictLoop keyT valT obj [] with
      | error e2 =>
        simp only [hl] at h
        cases h
      | ok entries =>
        simp only [hl] at h
        cases h
        have ha := jsonDictLoop_all keyT valT obj [] entries hl rfl
        simp only [validate_type, PyVal.isMissing]
        exact validateDictEntries_of_all keyT valT name entries ha
  · unfold flatDictConvert at h
    cases hl : flatDictLoop keyT valT (commaItems s) [] with
    | error e2 =>
      simp only [hl] at h
      cases h
    | ok entries =>
      simp only [hl] at h
      cases h
      have ha := flatDictLoop_all keyT valT (commaItems s) [] entries hl rfl
      simp only [validate_type, PyVal.isMissing]
      exact validateDictEntries_of_all keyT valT name entries ha

/-- C10 (amended): every value produced by successfully decoding a CLI
token for a decodable kind whose compound element classes are scalars
(scalar, enumerated choice, optional of those, and list / tuple / mapping
with scalar element classes) also passes the validator's check for that
kind, for every JSON loader and every field path.  The unrestricted
claim is refuted by `decode_fallback_validation_rejects`: for a
nested-compound element annotation (`dict[str, dict[str, str]]`,
`list[list[int]]`) the decode factories convert element values through
the generic constructor-call fallback, which enforces nothing about the
inner entries, while the validator recurses into the declared inner kind
and rejects them. -/
theorem decode_implies_validate_on_scalar_elems :
    ∀ (kind : TypeKind) (jloads : String → Except String (List (String × PyVal)))
      (s : String) (v : PyVal) (name : String),
    cliDecodable kind = true →
    scalarElems kind = true →
    decodeCLI jloads kind s = .ok v →
    validate_type v kind name = .ok () := by
  intro kind
  induction kind with
  | scalar sc =>
    intro jloads s v name hd hse h
    cases sc <;> simp only [decodeCLI] at h <;> (try split at h) <;> (try cases h) <;>
      simp_all [validate_type, scalarValidate, PyVal.isMissing]
  | literal cs =>
    intro jloads s v name hd hse h
    simp only [decodeCLI] at h
    split_ifs at h with hmem
    · cases h
      simp [validate_type, PyVal.isMissing, hmem]
  | opt inner ih =>
    intro jloads s v name hd hse h
    simp only [decodeCLI] at h
    simp only [cliDecodable] at hd
    simp only [scalarElems] at hse
    have hv := ih jloads s v name hd hse h
    by_cases hm : v.isMissing = true
    · simp [validate_type, hm]
    · by_cases hn : v.isNone = true
      · simp [validate_type, hm, hn]
      · simpa [validate_type, hm, hn] using hv
  | list e =>
    intro jloads s v name hd hse h
    exact parse_list_validates e s v name h
  | tuple es =>
    intro jloads s v name hd hse h
    exact parse_tuple_validates es s v name h
  | dict keyT valT =>
    intro jloads s v name hd hse h
    exact parse_dict_validates jloads keyT valT s v name h
  | record c =>
    intro jloads s v name hd hse h
    simp [cliDecodable] at hd
  | listRec c =>
    intro jloads s v name hd hse h
    simp [cliDecodable] at hd
  | tupleRec cs =>
    intro jloads s v name hd hse h
    simp [cliDecodable] at hd
  | dictD keyT vk vv =>
    intro jloads s v name hd hse h
    simp [scalarElems] at hse
  | listL e =>
    intro jloads s v name hd hse h
    simp [scalarElems] at hse

/-- C10 witness: a decoded mapping token validated at its kind. -/
theorem decode_implies_validate_on_scalar_elems_witness :
    validate_type (.dict [(.str "a", .int 1)]) (.dict .str .int) ("f") = .ok () :=
  decode_implies_validate_on_scalar_elems (.dict .str .int) (fun _ => .error "")
    ("a=1") (.dict [(.str "a", .int 1)]) ("f") rfl rfl rfl

/-- C10 counterexample to the unrestricted claim: both kinds are
CLI-decodable, yet validation rejects a successfully decoded value.  For
`dict[str, dict[str, str]]` (the repository's own test annotation) the
JSON token decodes through the generic fallback `dict[str, str](v)`,
which copies the inner mapping without checking its entries, and
`_validate_type` then recurses into the declared value kind and raises on
the int.  For `list[list[int]]` the token `1` decodes through
`list[int]("1")` to a list of character strings, and validation raises
on the string against int. -/
theorem decode_fallback_validation_rejects :
    cliDecodable (.dictD .str .str .str) = true ∧
    decodeCLI (fun _ => .ok [("a", .dict [(.str "b", .int 1)])])
      (.dictD .str .str .str) "\x7b\"a\": \x7b\"b\": 1\x7d\x7d" =
      .ok (.dict [(.str "a", .dict [(.str "b", .int 1)])]) ∧
    validate_type (.dict [(.str "a", .dict [(.str "b", .int 1)])])
      (.dictD .str .str .str) ("Cfg.m") =
      .error (.typeErr (fieldErr ("Cfg.m[\x27a\x27][\x27b\x27]") "str" (.int 1))) ∧
    cliDecodable (.listL .int) = true ∧
    decodeCLI (fun _ => .error "") (.listL .int) "1" =
      .ok (.list [.list [.str "1"]]) ∧
    validate_type (.list [.list [.str "1"]]) (.listL .int) ("Cfg.l") =
      .error (.typeErr (fieldErr ("Cfg.l[0][0]") "int" (.str "1"))) :=
  ⟨rfl, rfl, rfl, rfl, rfl, rfl⟩

/-! Round-trip support (C4): serialization identities on flat values,
lookup on serialized field dictionaries, and exact dataclass
reconstruction from serialized keyword arguments. -/

/-- `serializeF` keeps scalar-shaped values unchanged at every fuel. -/
theorem serializeF_isScalar (v : PyVal) (fuel : Nat) :
    isScalarV v = true → serializeF fuel v = v := by
  intro h
  cases fuel with
  | zero => rfl
  | succ n => cases v <;> simp_all [isScalarV, serializeF]

/-- A value of a scalar class serializes to itself. -/
theorem serializeF_scalarWT (v : PyVal) (sc : Scalar) (fuel : Nat) :
    scalarWT v sc = true → serializeF fuel v = v := by
  intro h
  apply serializeF_isScalar
  cases sc <;> cases v <;> simp_all [scalarWT, isScalarV]

/-- Scalar element lists serialize to themselves. -/
theorem map_serializeF_scalar (e : Scalar) (fuel : Nat) :
    ∀ xs : List PyVal, xs.all (fun x => scalarWT x e) = true →
    xs.map (fun x => serializeF fuel x) = xs := by
  intro xs
  induction xs with
  | nil => intro _; rfl
  | cons x xs ih =>
    intro h
    rw [List.all_cons, Bool.and_eq_true] at h
    simp only [List.map_cons]
    rw [serializeF_scalarWT x e fuel h.1, ih h.2]

/-- Scalar dictionary entries serialize to themselves. -/
theorem map_serializeF_entries (keyT valT : Scalar) (fuel : Nat) :
    ∀ es : List (PyVal × PyVal),
    es.all (fun p => scalarWT p.1 keyT && scalarWT p.2 valT) = true →
    es.map (fun p => (serializeF fuel p.1, serializeF fuel p.2)) = es := by
  intro es
  induction es with
  | nil => intro _; rfl
  | cons p ps ih =>
    intro h
    rw [List.all_cons, Bool.and_eq_true] at h
    obtain ⟨hp, hps⟩ := h
    rw [Bool.and_eq_true] at hp
    simp only [List.map_cons]
    rw [serializeF_scalarWT p.1 keyT fuel hp.1, serializeF_scalarWT p.2 valT fuel hp.2,
      ih hps]

/-- A well-typed value of a flat kind serializes to itself at every fuel:
flat kinds contain no dataclass instance and no tuple. -/
theorem serializeF_flat (k : TypeKind) :
    ∀ (v : PyVal) (fuel : Nat), flatOK k = true → flatWT v k = true →
    serializeF fuel v = v := by
  induction k with
  | scalar sc => intro v fuel _ h; exact serializeF_scalarWT v sc fuel h
  | literal cs =>
    intro v fuel _ h
    simp only [flatWT, Bool.and_eq_true] at h
    exact serializeF_isScalar v fuel h.2
  | opt inner ih =>
    intro v fuel hOK h
    simp only [flatWT, Bool.or_eq_true] at h
    cases h with
    | inl hn =>
      cases v <;> simp only [PyVal.isNone] at hn
      all_goals try exact Bool.noConfusion hn
      cases fuel <;> rfl
    | inr h2 => exact ih v fuel hOK h2
  | list e =>
    intro v fuel _ h
    cases v <;> simp only [flatWT] at h
    all_goals try exact Bool.noConfusion h
    cases fuel with
    | zero => rfl
    | succ n =>
      simp only [serializeF]
      rw [map_serializeF_scalar e n _ h]
  | tuple es => intro v fuel hOK _; simp [flatOK] at hOK
  | dict keyT valT =>
    intro v fuel _ h
    cases v <;> simp only [flatWT] at h
    all_goals try exact Bool.noConfusion h
    cases fuel with
    | zero => rfl
    | succ n =>
      simp only [serializeF]
      rw [map_serializeF_entries keyT valT n _ h]
  | record c => intro v fuel hOK _; simp [flatOK] at hOK
  | listRec c => intro v fuel hOK _; simp [flatOK] at hOK
  | tupleRec cs => intro v fuel hOK _; simp [flatOK] at hOK
  | dictD k1 k2 k3 => intro v fuel hOK _; simp [flatOK] at hOK
  | listL e => intro v fuel hOK _; simp [flatOK] at hOK

/-- A well-typed value of a flat kind is never the `MISSING` sentinel. -/
theorem flatWT_notMissing (k : TypeKind) :
    ∀ v : PyVal, flatOK k = true → flatWT v k = true → v.isMissing = false := by
  induction k with
  | scalar sc => intro v _ h; cases sc <;> cases v <;> simp_all [flatWT, scalarWT, PyVal.isMissing]
  | literal cs =>
    intro v _ h
    simp only [flatWT, Bool.and_eq_true] at h
    cases v <;> simp_all [isScalarV, PyVal.isMissing]
  | opt inner ih =>
    intro v hOK h
    simp only [flatWT, Bool.or_eq_true] at h
    cases h with
    | inl hn => cases v <;> simp_all [PyVal.isNone, PyVal.isMissing]
    | inr h2 => exact ih v hOK h2
  | list e => intro v _ h; cases v <;> simp_all [flatWT, PyVal.isMissing]
  | tuple es => intro v hOK _; simp [flatOK] at hOK
  | dict keyT valT => intro v _ h; cases v <;> simp_all [flatWT, PyVal.isMissing]
  | record c => intro v hOK _; simp [flatOK] at hOK
  | listRec c => intro v hOK _; simp [flatOK] at hOK
  | tupleRec cs => intro v hOK _; simp [flatOK] at hOK
  | dictD k1 k2 k3 => intro v hOK _; simp [flatOK] at hOK
  | listL e => intro v hOK _; simp [flatOK] at hOK

/-- On flat kinds, fueled well-typedness is exactly `flatWT`. -/
theorem wellTypedVal_flat (env : Env) (k : Nat) (kind : TypeKind) (v : PyVal) :
    flatOK kind = true → wellTypedVal env k v kind = true → flatWT v kind = true := by
  intro hOK h
  cases k with
  | zero => exact Bool.noConfusion h
  | succ n => cases kind <;> simp_all [wellTypedVal, flatOK]

/-- A flat well-typed value passes the validator at its kind. -/
theorem flatWT_validate (k : TypeKind) :
    ∀ (v : PyVal) (name : String), flatOK k = true → flatWT v k = true →
    validate_type v k name = .ok () := by
  induction k with
  | scalar sc =>
    intro v name hOK h
    have hm : v.isMissing = false := flatWT_notMissing _ v hOK h
    simp only [validate_type, hm, Bool.false_eq_true, if_false]
    exact scalarWT_validate v sc name h
  | literal cs =>
    intro v name hOK h
    have hm : v.isMissing = false := flatWT_notMissing _ v hOK h
    simp only [flatWT, Bool.and_eq_true] at h
    simp only [validate_type, hm, Bool.false_eq_true, if_false, h.1, if_true]
  | opt inner ih =>
    intro v name hOK h
    have hm : v.isMissing = false := flatWT_notMissing _ v hOK h
    simp only [flatWT, Bool.or_eq_true] at h
    simp only [validate_type, hm, Bool.false_eq_true, if_false]
    cases h with
    | inl hn => simp only [hn, if_true]
    | inr h2 =>
      cases hn : v.isNone with
      | true => simp only [if_true]
      | false =>
        simp only [Bool.false_eq_true, if_false]
        exact ih v name hOK h2
  | list e =>
    intro v name hOK h
    have hm : v.isMissing = false := flatWT_notMissing _ v hOK h
    cases v <;> simp only [flatWT] at h
    all_goals try exact Bool.noConfusion h
    simp only [validate_type, hm, Bool.false_eq_true, if_false]
    exact validateElems_of_WT e name _ 0 h
  | tuple es => intro v name hOK _; simp [flatOK] at hOK
  | dict keyT valT =>
    intro v name hOK h
    have hm : v.isMissing = false := flatWT_notMissing _ v hOK h
    cases v <;> simp only [flatWT] at h
    all_goals try exact Bool.noConfusion h
    simp only [validate_type, hm, Bool.false_eq_true, if_false]
    exact validateDictEntries_of_all keyT valT name _ h
  | record c => intro v name hOK _; simp [flatOK] at hOK
  | listRec c => intro v name hOK _; simp [flatOK] at hOK
  | tupleRec cs => intro v name hOK _; simp [flatOK] at hOK
  | dictD k1 k2 k3 => intro v name hOK _; simp [flatOK] at hOK
  | listL e => intro v name hOK _; simp [flatOK] at hOK

/-- Aligned instance fields carry exactly the schema field names. -/
theorem wtFields_names (wt : PyVal → TypeKind → Bool) :
    ∀ (flds : List (String × PyVal)) (fs : List FieldDesc),
    wtFieldsAux wt flds fs = true →
    flds.map Prod.fst = fs.map (fun f => f.fname) := by
  intro flds
  induction flds with
  | nil =>
    intro fs h
    cases fs with
    | nil => rfl
    | cons f fs => exact Bool.noConfusion h
  | cons p ps ih =>
    intro fs h
    cases fs with
    | nil => obtain ⟨n, v⟩ := p; exact Bool.noConfusion h
    | cons f fs =>
      obtain ⟨n, v⟩ := p
      simp only [wtFieldsAux, Bool.and_eq_true] at h
      simp only [List.map_cons]
      rw [ih fs h.2]
      exact congrArg (fun s => s :: fs.map (fun f => f.fname)) (eq_of_beq h.1.1)

/-- Pointwise facts for aligned schema/field pairs. -/
theorem wtFields_zip (wt : PyVal → TypeKind → Bool) :
    ∀ (fs : List FieldDesc) (flds : List (String × PyVal)),
    wtFieldsAux wt flds fs = true →
    ∀ q ∈ fs.zip flds, q.2.1 = q.1.fname ∧ wt q.2.2 q.1.kind = true := by
  intro fs
  induction fs with
  | nil => intro flds _ q hq; simp at hq
  | cons f fs ih =>
    intro flds h q hq
    cases flds with
    | nil => simp at hq
    | cons p ps =>
      obtain ⟨n, v⟩ := p
      simp only [wtFieldsAux, Bool.and_eq_true] at h
      rw [List.zip_cons_cons] at hq
      rcases List.mem_cons.mp hq with hq | hq
      · subst hq; exact ⟨eq_of_beq h.1.1, h.1.2⟩
      · exact ih ps h.2 q hq

/-- In an all-`None` namespace every lookup yields `None`. -/
theorem paLookup_allNone (pa : List (String × PyVal)) (k : String) (w : PyVal) :
    allNone pa = true → paLookup pa k = some w → w.isNone = true := by
  intro hAll h
  simp only [paLookup] at h
  cases hf : pa.find? (fun p => p.1 == k) with
  | none => rw [hf] at h; exact Option.noConfusion h
  | some p =>
    rw [hf] at h
    simp only [Option.map_some'] at h
    cases h
    exact List.all_eq_true.mp hAll p (List.mem_of_find?_eq_some hf)

/-- In an all-`None` namespace no key counts as a non-absent override. -/
theorem pa_any_override_false (pa : List (String × PyVal)) (s : String) :
    allNone pa = true →
    pa.any (fun kv => pyStartsWith kv.1 s && !kv.2.isNone) = false := by
  intro hAll
  rw [List.any_eq_false]
  intro kv hkv
  have hnn := List.all_eq_true.mp hAll kv hkv
  simp [hnn]

/-- Finding a field name in a serialized field dictionary returns that
field's serialized value (names are unique). -/
theorem serialized_find (k : Nat) (nm : String) (vf : PyVal) :
    ∀ flds : List (String × PyVal), nodupStr (flds.map Prod.fst) = true →
    (nm, vf) ∈ flds →
    (flds.map (fun p => (PyVal.str p.1, serializeF k p.2))).find?
      (fun p => pyEq p.1 (.str nm)) = some (.str nm, serializeF k vf) := by
  intro flds
  induction flds with
  | nil => intro _ hmem; cases hmem
  | cons q qs ih =>
    intro hnd hmem
    obtain ⟨m, w⟩ := q
    simp only [List.map_cons, nodupStr, Bool.and_eq_true] at hnd
    cases hmn : m == nm with
    | true =>
      have hm : m = nm := eq_of_beq hmn
      subst hm
      have hcond : pyEq (PyVal.str m) (PyVal.str m) = true := by simp [pyEq]
      rw [List.map_cons, List.find?_cons, hcond]
      rcases List.mem_cons.mp hmem with h | h
      · cases h; rfl
      · exfalso
        have : m ∈ qs.map Prod.fst := List.mem_map.mpr ⟨(m, vf), h, rfl⟩
        have hc := hnd.1
        rw [Bool.not_eq_true'] at hc
        rw [show (qs.map Prod.fst).contains m = List.elem m (qs.map Prod.fst) from rfl,
          List.elem_eq_true_of_mem this] at hc
        exact Bool.noConfusion hc
    | false =>
      have hcond : pyEq (PyVal.str m) (PyVal.str nm) = false := by
        simp only [pyEq]; exact hmn
      rw [List.map_cons, List.find?_cons, hcond]
      apply ih hnd.2
      rcases List.mem_cons.mp hmem with h | h
      · cases h; rw [BEq.refl] at hmn; exact Bool.noConfusion hmn
      · exact h

/-- A found entry makes `name in section` true. -/
theorem cfgMember_of_find (ces : List (PyVal × PyVal)) (nm : String) (w : PyVal × PyVal) :
    ces.find? (fun p => pyEq p.1 (.str nm)) = some w →
    cfgMember (.dict ces) nm = true := by
  intro h
  simp only [cfgMember]
  have hp := List.find?_some h
  exact List.any_eq_true.mpr ⟨w, List.mem_of_find?_eq_some h, hp⟩

/-- `section[name]` returns the found entry's value. -/
theorem cfgGet_of_find (ces : List (PyVal × PyVal)) (nm : String) (w : PyVal × PyVal) :
    ces.find? (fun p => pyEq p.1 (.str nm)) = some w →
    cfgGet (.dict ces) nm = w.2 := by
  intro h
  simp only [cfgGet, h, Option.map_some', Option.getD_some]

/-- `section.get(name, d)` returns the found entry's value. -/
theorem cfgGetD_of_find (ces : List (PyVal × PyVal)) (nm : String) (w : PyVal × PyVal)
    (d : PyVal) :
    ces.find? (fun p => pyEq p.1 (.str nm)) = some w →
    cfgGetD (.dict ces) nm d = w.2 := by
  intro h
  simp only [cfgGetD, h, Option.map_some', Option.getD_some]

/-- `cls(**d)` keyword extraction on a serialized field dictionary. -/
theorem kwargsOfDict_map (g : PyVal → PyVal) :
    ∀ l : List (String × PyVal),
    kwargsOfDict (l.map (fun p => (PyVal.str p.1, g p.2))) =
      .ok (l.map (fun p => (p.1, g p.2))) := by
  intro l
  induction l with
  | nil => rfl
  | cons p ps ih =>
    obtain ⟨n, v⟩ := p
    simp only [List.map_cons, kwargsOfDict, ih]

/-- Serialization is the identity on the fields of an all-flat record. -/
theorem wtFields_flat_serialize (env : Env) (i k2 : Nat) :
    ∀ (fs : List FieldDesc) (iflds : List (String × PyVal)),
    wtFieldsAux (wellTypedVal env i) iflds fs = true →
    fs.all (fun f => flatOK f.kind) = true →
    iflds.map (fun p => (p.1, serializeF k2 p.2)) = iflds := by
  intro fs
  induction fs with
  | nil =>
    intro iflds h _
    cases iflds with
    | nil => rfl
    | cons p ps => obtain ⟨n, v⟩ := p; exact Bool.noConfusion h
  | cons f fs ih =>
    intro iflds h hOK
    cases iflds with
    | nil => exact Bool.noConfusion h
    | cons p ps =>
      obtain ⟨n, v⟩ := p
      simp only [wtFieldsAux, Bool.and_eq_true] at h
      rw [List.all_cons, Bool.and_eq_true] at hOK
      simp only [List.map_cons]
      rw [serializeF_flat f.kind v k2 hOK.1 (wellTypedVal_flat env i f.kind v hOK.1 h.1.2),
        ih ps h.2 hOK.2]

/-- The field loop of `cls(**kwargs)` returns exactly the aligned keyword
list when every field name is found there. -/
theorem constructVals_exact (cls : String) :
    ∀ (fields : List FieldDesc) (flds kwargs : List (String × PyVal)),
    flds.map Prod.fst = fields.map (fun f => f.fname) →
    nodupStr (flds.map Prod.fst) = true →
    (∀ f ∈ fields, lookupStr kwargs f.fname = lookupStr flds f.fname) →
    constructVals kwargs cls fields = .ok flds := by
  intro fields
  induction fields with
  | nil =>
    intro flds kwargs hnames _ _
    cases flds with
    | nil => rfl
    | cons p ps => exact absurd hnames (by simp)
  | cons f fs ih =>
    intro flds kwargs hnames hnd hlk
    cases flds with
    | nil => exact absurd hnames (by simp)
    | cons p ps =>
      obtain ⟨n, w⟩ := p
      simp only [List.map_cons, List.cons.injEq] at hnames
      simp only [List.map_cons, nodupStr, Bool.and_eq_true] at hnd
      have hhead : lookupStr kwargs f.fname = some w := by
        rw [hlk f (List.mem_cons_self f fs)]
        simp only [lookupStr, List.find?_cons, show (n == f.fname) = true from
          beq_iff_eq.mpr hnames.1, Option.map_some']
      simp only [constructVals, hhead]
      have htail : constructVals kwargs cls fs = .ok ps := by
        apply ih ps kwargs hnames.2 hnd.2
        intro g hg
        rw [hlk g (List.mem_cons_of_mem f hg)]
        have hgname : g.fname ∈ ps.map Prod.fst := by
          rw [hnames.2]; exact List.mem_map.mpr ⟨g, hg, rfl⟩
        have hne : (n == g.fname) = false := by
          cases hb : n == g.fname with
          | false => rfl
          | true =>
            exfalso
            have hc := hnd.1
            rw [Bool.not_eq_true', eq_of_beq hb,
              show (ps.map Prod.fst).contains g.fname = List.elem g.fname (ps.map Prod.fst)
                from rfl, List.elem_eq_true_of_mem hgname] at hc
            exact Bool.noConfusion hc
        simp only [lookupStr, List.find?_cons, hne]
      rw [htail, hnames.1]

/-- `cls(**kwargs)` with exactly the schema's field names in order
rebuilds the instance with those fields. -/
theorem constructKw_exact (env : Env) (cls : String) (fields : List FieldDesc)
    (flds : List (String × PyVal)) :
    envFields env cls = some fields →
    flds.map Prod.fst = fields.map (fun f => f.fname) →
    nodupStr (fields.map (fun f => f.fname)) = true →
    constructKw env cls flds = .ok (.inst cls flds) := by
  intro hE hnames hnd
  simp only [constructKw, hE]
  have hun : (flds.any (fun kv => fields.all (fun f => f.fname ≠ kv.1))) = false := by
    rw [List.any_eq_false]
    intro kv hkv
    have : kv.1 ∈ fields.map (fun f => f.fname) := by
      rw [← hnames]; exact List.mem_map.mpr ⟨kv, hkv, rfl⟩
    rcases List.mem_map.mp this with ⟨g, hg, hgeq⟩
    intro hcontra
    rw [List.all_eq_true] at hcontra
    have hgd := hcontra g hg
    rw [decide_eq_true_iff] at hgd
    exact hgd hgeq
  rw [hun]
  simp only [Bool.false_eq_true, if_false]
  rw [constructVals_exact cls fields flds flds hnames (by rw [hnames]; exact hnd)
    (fun f _ => rfl)]

/-- With no declared argument under the field, `_merge_nested`'s `elif`
chain takes the config entry. -/
theorem mergeFieldRest_cfg
    (deeper : String → String → PyVal → List (String × PyVal) → Except PyErr PyVal)
    (f : FieldDesc) (kCli : String) (ces : List (PyVal × PyVal))
    (pa : List (String × PyVal)) (w : PyVal)
    (hAny : (pa.any (fun kv => pyStartsWith kv.1 (kCli ++ "."))) = false)
    (hfind : ces.find? (fun p => pyEq p.1 (.str f.fname)) = some (.str f.fname, w)) :
    mergeFieldRest deeper f kCli (.dict ces) pa = .ok (some (f.fname, w)) := by
  have hm := cfgMember_of_find ces f.fname _ hfind
  have hg := cfgGet_of_find ces f.fname _ hfind
  simp only [mergeFieldRest, hAny, Bool.false_eq_true, if_false, hm, if_true, hg]

/-- With a declared argument under a nested-dataclass field, the chain
recurses into the nested merge on the config subtree. -/
theorem mergeFieldRest_rec
    (deeper : String → String → PyVal → List (String × PyVal) → Except PyErr PyVal)
    (f : FieldDesc) (c : String) (kCli : String) (ces : List (PyVal × PyVal))
    (pa : List (String × PyVal)) (w v : PyVal)
    (hk : f.kind = .record c)
    (hAny : (pa.any (fun kv => pyStartsWith kv.1 (kCli ++ "."))) = true)
    (hfind : ces.find? (fun p => pyEq p.1 (.str f.fname)) = some (.str f.fname, w))
    (hdeep : deeper c kCli w pa = .ok v) :
    mergeFieldRest deeper f kCli (.dict ces) pa = .ok (some (f.fname, v)) := by
  have hg := cfgGetD_of_find ces f.fname _ (.dict []) hfind
  simp only [mergeFieldRest, hAny, if_true, hk, hg, hdeep]

/-- Rebuilding a serialized list of flat-record instances recovers the
original list. -/
theorem elemConstructList_serialized (env : Env) (c : String) :
    ∀ (j : Nat) (xs : List PyVal),
    flatRecord env c = true →
    wtListAux (wellTypedVal env j) c xs = true →
    elemConstructList env c (xs.map (fun x => serializeF j x)) = .ok xs := by
  intro j xs
  induction xs with
  | nil => intro _ _; rfl
  | cons x xs ih =>
    intro hfr h
    simp only [wtListAux, Bool.and_eq_true] at h
    obtain ⟨h1, h2⟩ := h
    cases j with
    | zero => exact Bool.noConfusion h1
    | succ i =>
      cases x with
      | inst c0 iflds =>
        simp only [wellTypedVal, Bool.and_eq_true] at h1
        have hc : c0 = c := eq_of_beq h1.1
        subst hc
        have h1b := h1.2
        simp only [flatRecord] at hfr
        cases hE : envFields env c0 with
        | none => simp only [hE] at hfr; exact Bool.noConfusion hfr
        | some fs =>
          simp only [hE] at hfr h1b
          rw [Bool.and_eq_true] at hfr
          simp only [List.map_cons, elemConstructList]
          rw [show serializeF (i + 1) (PyVal.inst c0 iflds) =
            PyVal.dict (iflds.map (fun p => (PyVal.str p.1, serializeF i p.2))) from rfl]
          simp only [elemConstruct, kwargsOfDict_map (serializeF i) iflds,
            wtFields_flat_serialize env i i fs iflds h1b hfr.2,
            constructKw_exact env c0 fs iflds hE
              (wtFields_names (wellTypedVal env i) iflds fs h1b) hfr.1]
          rw [ih (by simp only [flatRecord, hE]; rw [Bool.and_eq_true]; exact hfr) h2]
      | _ => exact Bool.noConfusion h1

/-- On non-record kinds, round-trippability is flatness. -/
theorem rtOK_nonrec (env : Env) (k : Nat) (kind : TypeKind) :
    rtOK env k kind = true → (∀ c : String, kind ≠ .record c) →
    flatOK kind = true := by
  intro h hne
  cases k with
  | zero => exact Bool.noConfusion h
  | succ j =>
    cases kind
    case record c => exact absurd rfl (hne c)
    all_goals exact h

/-- Head decomposition of the namespace-shape predicate: a nested
dataclass field has keys under it and a recursive shape fact; every
other field has no key strictly under it. -/
theorem paOKAux_head (env : Env)
    (pk : String → List FieldDesc → List (String × PyVal) → Bool)
    (pfx : String) (pa : List (String × PyVal)) (f : FieldDesc)
    (fs : List FieldDesc) :
    paOKAux env pk pfx pa (f :: fs) = true →
    paOKAux env pk pfx pa fs = true ∧
    ((∃ c fs2, f.kind = .record c ∧ envFields env c = some fs2 ∧
        (pa.any (fun kv => pyStartsWith kv.1 ((pfx ++ "." ++ f.fname) ++ "."))) = true ∧
        pk (pfx ++ "." ++ f.fname) fs2 pa = true) ∨
     ((∀ c : String, f.kind ≠ .record c) ∧
        (pa.any (fun kv => pyStartsWith kv.1 ((pfx ++ "." ++ f.fname) ++ "."))) = false)) := by
  intro h
  simp only [paOKAux, Bool.and_eq_true] at h
  refine ⟨h.2, ?_⟩
  have hh := h.1
  cases hfk : f.kind
  case record c =>
    rw [hfk] at hh
    simp only [Bool.and_eq_true] at hh
    cases hE : envFields env c with
    | none => simp only [hE] at hh; exact absurd hh.2 (by simp)
    | some fs2 =>
      simp only [hE] at hh
      exact Or.inl ⟨c, fs2, rfl, hE, hh.1, hh.2⟩
  all_goals
    (rw [hfk] at hh
     simp only [Bool.not_eq_true'] at hh
     exact Or.inr ⟨fun c hc => TypeKind.noConfusion hc, hh⟩)

/-- The field loop of `_merge_nested` over a serialized field dictionary
reproduces every aligned field and reports nothing missing, given the
namespace is all-`None` and shaped by the schema. -/
theorem mergeFields_rt (env : Env) (k : Nat)
    (hIH : ∀ (cls pfx : String) (v : PyVal) (pa : List (String × PyVal))
      (fs : List FieldDesc),
      envFields env cls = some fs → wellTypedVal env k v (.record cls) = true →
      rtOK env k (.record cls) = true → paOK env k pfx fs pa = true →
      allNone pa = true →
      merge_nested env k cls pfx (serializeF k v) pa = .ok v) :
    ∀ (fields : List FieldDesc) (flds : List (String × PyVal)) (pfx : String)
      (ces : List (PyVal × PyVal)) (pa : List (String × PyVal)),
    wtFieldsAux (wellTypedVal env k) flds fields = true →
    rtOKAux (rtOK env k) fields = true →
    paOKAux env (paOK env k) pfx pa fields = true →
    allNone pa = true →
    (∀ q ∈ fields.zip flds, ces.find? (fun p => pyEq p.1 (.str q.1.fname)) =
      some (.str q.1.fname, serializeF k q.2.2)) →
    mergeFields (merge_nested env k) fields pfx (.dict ces) pa = .ok (flds, []) := by
  intro fields
  induction fields with
  | nil =>
    intro flds pfx ces pa hwt _ _ _ _
    cases flds with
    | nil => rfl
    | cons p ps => exact Bool.noConfusion hwt
  | cons f fs ih =>
    intro flds pfx ces pa hwt hrt hpa hAll hCfg
    cases flds with
    | nil => exact Bool.noConfusion hwt
    | cons p ps =>
      obtain ⟨n, w⟩ := p
      simp only [wtFieldsAux, Bool.and_eq_true] at hwt
      obtain ⟨⟨hname, hw⟩, hwtail⟩ := hwt
      simp only [rtOKAux, Bool.and_eq_true] at hrt
      have hn2 : n = f.fname := eq_of_beq hname
      subst hn2
      have hfind := hCfg (f, (f.fname, w))
        (by rw [List.zip_cons_cons]; exact List.mem_cons_self _ _)
      have hCfgT : ∀ q ∈ fs.zip ps, ces.find? (fun p => pyEq p.1 (.str q.1.fname)) =
          some (.str q.1.fname, serializeF k q.2.2) :=
        fun q hq => hCfg q (by rw [List.zip_cons_cons]; exact List.mem_cons_of_mem _ hq)
      obtain ⟨hpaT, hhead⟩ := paOKAux_head env (paOK env k) pfx pa f fs hpa
      simp only [mergeFields]
      have hcontrib : (match paLookup pa (pfx ++ "." ++ f.fname) with
           | some v => if !v.isNone then Except.ok (some (f.fname, v))
             else mergeFieldRest (merge_nested env k) f (pfx ++ "." ++ f.fname)
               (.dict ces) pa
           | Option.none => mergeFieldRest (merge_nested env k) f
               (pfx ++ "." ++ f.fname) (.dict ces) pa)
          = mergeFieldRest (merge_nested env k) f (pfx ++ "." ++ f.fname)
            (.dict ces) pa := by
        cases hpl : paLookup pa (pfx ++ "." ++ f.fname) with
        | none => rfl
        | some u =>
          have hu := paLookup_allNone pa _ u hAll hpl
          simp [hu]
      rw [hcontrib]
      rcases hhead with ⟨c, fs2, hkc, hE, hAny, hpk⟩ | ⟨hnr, hAnyF⟩
      · have hwc : wellTypedVal env k w (.record c) = true := by rw [← hkc]; exact hw
        have hrtc : rtOK env k (.record c) = true := by rw [← hkc]; exact hrt.1
        have hdeep := hIH c (pfx ++ "." ++ f.fname) w pa fs2 hE hwc hrtc hpk hAll
        rw [mergeFieldRest_rec (merge_nested env k) f c (pfx ++ "." ++ f.fname) ces pa
          (serializeF k w) w hkc hAny hfind hdeep]
        rw [ih ps pfx ces pa hwtail hrt.2 hpaT hAll hCfgT]
      · have hOK : flatOK f.kind = true := rtOK_nonrec env k f.kind hrt.1 hnr
        have hfw : flatWT w f.kind = true := wellTypedVal_flat env k f.kind w hOK hw
        rw [mergeFieldRest_cfg (merge_nested env k) f (pfx ++ "." ++ f.fname) ces pa
          (serializeF k w) hAnyF hfind]
        rw [serializeF_flat f.kind w k hOK hfw]
        rw [ih ps pfx ces pa hwtail hrt.2 hpaT hAll hCfgT]

/-- Promoted-subtree round trip: `_merge_nested` over the serialization
of a well-typed instance of a round-trippable record schema, with an
all-`None` schema-shaped namespace, rebuilds the instance exactly. -/
theorem merge_serialize_rt (env : Env) :
    ∀ (k : Nat) (cls pfx : String) (v : PyVal) (pa : List (String × PyVal))
      (fields : List FieldDesc),
    envFields env cls = some fields →
    wellTypedVal env k v (.record cls) = true →
    rtOK env k (.record cls) = true →
    paOK env k pfx fields pa = true →
    allNone pa = true →
    merge_nested env k cls pfx (serializeF k v) pa = .ok v := by
  intro k
  induction k with
  | zero => intro cls pfx v pa fields _ hwt _ _ _; exact Bool.noConfusion hwt
  | succ j ihk =>
    intro cls pfx v pa fields hE hwt hrt hpa hAll
    cases v
    case inst c0 flds =>
      simp only [wellTypedVal, Bool.and_eq_true] at hwt
      have hc : c0 = cls := eq_of_beq hwt.1
      subst hc
      have hwtf := hwt.2
      simp only [hE] at hwtf
      simp only [rtOK, hE, Bool.and_eq_true] at hrt
      simp only [paOK] at hpa
      rw [show serializeF (j + 1) (PyVal.inst c0 flds) =
        PyVal.dict (flds.map (fun p => (PyVal.str p.1, serializeF j p.2))) from rfl]
      simp only [merge_nested, hE]
      have hnames := wtFields_names (wellTypedVal env j) flds fields hwtf
      have hndflds : nodupStr (flds.map Prod.fst) = true := by
        rw [hnames]; exact hrt.1.2
      have hCfg : ∀ q ∈ fields.zip flds,
          (flds.map (fun p => (PyVal.str p.1, serializeF j p.2))).find?
            (fun p => pyEq p.1 (.str q.1.fname)) =
          some (.str q.1.fname, serializeF j q.2.2) := by
        intro q hq
        obtain ⟨fd, nm, vv⟩ := q
        have hzq := wtFields_zip (wellTypedVal env j) fields flds hwtf (fd, (nm, vv)) hq
        have hmem : (fd.fname, vv) ∈ flds := by
          rw [← hzq.1]
          exact (List.of_mem_zip hq).2
        exact serialized_find j fd.fname vv flds hndflds hmem
      rw [mergeFields_rt env j ihk fields flds pfx _ pa hwtf hrt.2 hpa hAll hCfg]
      simp only [List.isEmpty_nil, if_true]
      exact constructKw_exact env c0 fields flds hE hnames hrt.1.2
    all_goals (simp only [wellTypedVal] at hwt; exact Bool.noConfusion hwt)

/-- A value well-typed at a record kind is an instance of that class. -/
theorem wellTypedRecord_inst (env : Env) (k : Nat) (c : String) (w : PyVal)
    (h : wellTypedVal env k w (.record c) = true) :
    ∃ iflds, w = .inst c iflds := by
  cases k with
  | zero => exact Bool.noConfusion h
  | succ j =>
    cases w
    case inst c2 iflds =>
      simp only [wellTypedVal, Bool.and_eq_true] at h
      exact ⟨iflds, by rw [eq_of_beq h.1]⟩
    all_goals (simp only [wellTypedVal] at h; exact Bool.noConfusion h)

/-- The serialization of a well-typed instance of a non-empty record
schema is a non-empty mapping, so it counts as a config override. -/
theorem configHasOverride_serialized (env : Env) (j : Nat) (c : String) (w : PyVal)
    (hwc : wellTypedVal env (j + 1) w (.record c) = true)
    (hrtc : rtOK env (j + 1) (.record c) = true) :
    configHasOverride (serializeF (j + 1) w) = true := by
  cases w
  case inst c2 iflds =>
    simp only [wellTypedVal, Bool.and_eq_true] at hwc
    have hval := hwc.2
    simp only [rtOK] at hrtc
    cases hE : envFields env c with
    | none => simp only [hE] at hrtc; exact Bool.noConfusion hrtc
    | some fs2 =>
      simp only [hE] at hrtc hval
      simp only [Bool.and_eq_true] at hrtc
      cases fs2 with
      | nil => simp [List.isEmpty_nil] at hrtc
      | cons f2 fs2 =>
        cases iflds with
        | nil => exact Bool.noConfusion hval
        | cons p ps =>
          rw [show serializeF (j + 1) (PyVal.inst c2 (p :: ps)) =
            PyVal.dict ((p :: ps).map (fun q => (PyVal.str q.1, serializeF j q.2)))
            from rfl]
          simp [configHasOverride]
  all_goals (simp only [wellTypedVal] at hwc; exact Bool.noConfusion hwc)

/-- A non-record, non-`list[D]` field of a round-trippable top schema has
a flat kind. -/
theorem rtTop_flatOK (env : Env) (k : Nat) (kind : TypeKind)
    (hne : ∀ c : String, kind ≠ .record c)
    (hnl : ∀ c : String, kind ≠ .listRec c)
    (h : (rtOK env k kind ||
      (match kind with | .listRec c => flatRecord env c | _ => false)) = true) :
    flatOK kind = true := by
  cases hk : kind <;> subst hk
  case record c => exact absurd rfl (hne c)
  case listRec c => exact absurd rfl (hnl c)
  all_goals (
    rw [Bool.or_eq_true] at h
    cases h with
    | inl h1 => exact rtOK_nonrec env k _ h1 hne
    | inr h2 => exact Bool.noConfusion h2)

/-- One field of the top-level build loop over a serialized config
section resolves, converts, and validates back to the original value. -/
theorem fieldStep_rt (env : Env) (k : Nat) (cls : String) (f : FieldDesc)
    (w : PyVal) (ces : List (PyVal × PyVal)) (pa : List (String × PyVal))
    (hw : wellTypedVal env k w f.kind = true)
    (hall1 : (rtOK env k f.kind ||
      (match f.kind with | .listRec c => flatRecord env c | _ => false)) = true)
    (hhead : (∃ c fs2, f.kind = .record c ∧ envFields env c = some fs2 ∧
        (pa.any (fun kv => pyStartsWith kv.1 ((cls ++ "." ++ f.fname) ++ "."))) = true ∧
        paOK env k (cls ++ "." ++ f.fname) fs2 pa = true) ∨
      ((∀ c : String, f.kind ≠ .record c) ∧
        (pa.any (fun kv => pyStartsWith kv.1 ((cls ++ "." ++ f.fname) ++ "."))) = false))
    (hAll : allNone pa = true)
    (hfind : ces.find? (fun p => pyEq p.1 (.str f.fname)) =
      some (.str f.fname, serializeF k w)) :
    fieldStep env k cls (.dict ces) pa f = .ok w ∧ w.isMissing = false := by
  have hgd : cfgGetD (.dict ces) f.fname (.dict []) = serializeF k w :=
    cfgGetD_of_find ces f.fname _ (.dict []) hfind
  have hg : cfgGet (.dict ces) f.fname = serializeF k w :=
    cfgGet_of_find ces f.fname _ hfind
  have hm := cfgMember_of_find ces f.fname _ hfind
  rcases hhead with ⟨c, fs2, hkc, hE2, hAny, hpk⟩ | ⟨hnr, hAnyF⟩
  · -- nested dataclass field
    have hwc : wellTypedVal env k w (.record c) = true := by rw [← hkc]; exact hw
    cases k with
    | zero => exact Bool.noConfusion hwc
    | succ j =>
      have hrtc : rtOK env (j + 1) (.record c) = true := by
        rw [hkc] at hall1
        simp only [Bool.or_false] at hall1
        exact hall1
      obtain ⟨iflds, hwi⟩ := wellTypedRecord_inst env (j + 1) c w hwc
      have hOv := configHasOverride_serialized env j c w hwc hrtc
      have hmerge := merge_serialize_rt env (j + 1) c (cls ++ "." ++ f.fname) w pa
        fs2 hE2 hwc hrtc hpk hAll
      have hano := pa_any_override_false pa ((cls ++ "." ++ f.fname) ++ ".") hAll
      refine ⟨?_, by rw [hwi]; rfl⟩
      simp only [fieldStep, resolve_field_value, hkc, hgd, hano, Bool.false_or, hOv,
        if_true, hmerge]
      rw [hwi]
      rfl
  · -- flat or list-of-flat-records field
    cases hfk : f.kind
    case record c => exact absurd hfk (hnr c)
    case listRec c =>
      rw [hfk] at hw hall1
      have hfr : flatRecord env c = true := by
        rw [Bool.or_eq_true] at hall1
        cases hall1 with
        | inl h1 =>
          cases k with
          | zero => exact Bool.noConfusion h1
          | succ j => exact Bool.noConfusion h1
        | inr h2 => exact h2
      cases k with
      | zero => exact Bool.noConfusion hw
      | succ j =>
        cases w
        case list xs =>
          simp only [wellTypedVal] at hw
          refine ⟨?_, rfl⟩
          simp only [fieldStep, resolve_field_value, hfk, hm, if_true, hg]
          rw [show serializeF (j + 1) (PyVal.list xs) =
            PyVal.list (xs.map (fun x => serializeF j x)) from rfl]
          have hres : (match paLookup pa (cls ++ "." ++ f.fname) with
              | some u => if !u.isNone then u
                else PyVal.list (xs.map (fun x => serializeF j x))
              | Option.none => PyVal.list (xs.map (fun x => serializeF j x)))
              = PyVal.list (xs.map (fun x => serializeF j x)) := by
            cases hpl : paLookup pa (cls ++ "." ++ f.fname) with
            | none => rfl
            | some u => simp [paLookup_allNone pa _ u hAll hpl]
          rw [hres]
          simp only [handle_field_type, elemConstructList_serialized env c j xs hfr hw]
          rfl
        all_goals (simp only [wellTypedVal] at hw; exact Bool.noConfusion hw)
    all_goals (
      rw [hfk] at hw hall1
      have hOK := rtTop_flatOK env k _ (fun c hc => TypeKind.noConfusion hc)
        (fun c hc => TypeKind.noConfusion hc) hall1
      first
      | exact Bool.noConfusion hOK
      | (have hfw := wellTypedVal_flat env k _ w hOK hw
         have hmiss := flatWT_notMissing _ w hOK hfw
         refine ⟨?_, hmiss⟩
         simp only [fieldStep, resolve_field_value, hfk, hm, if_true, hg]
         rw [serializeF_flat _ w k hOK hfw]
         have hres : (match paLookup pa (cls ++ "." ++ f.fname) with
             | some u => if !u.isNone then u else w
             | Option.none => w) = w := by
           cases hpl : paLookup pa (cls ++ "." ++ f.fname) with
           | none => rfl
           | some u => simp [paLookup_allNone pa _ u hAll hpl]
         rw [hres]
         simp only [handle_field_type]
         rw [flatWT_validate _ w (cls ++ "." ++ f.fname) hOK hfw]))

/-- The top-level field loop over a serialized config section reproduces
every aligned field value with nothing missing. -/
theorem buildFields_rt (env : Env) (k : Nat) (cls : String) :
    ∀ (fields : List FieldDesc) (flds : List (String × PyVal))
      (ces : List (PyVal × PyVal)) (pa : List (String × PyVal)),
    wtFieldsAux (wellTypedVal env k) flds fields = true →
    (fields.all (fun f => rtOK env k f.kind ||
      (match f.kind with | .listRec c => flatRecord env c | _ => false))) = true →
    paOKAux env (paOK env k) cls pa fields = true →
    allNone pa = true →
    (∀ q ∈ fields.zip flds, ces.find? (fun p => pyEq p.1 (.str q.1.fname)) =
      some (.str q.1.fname, serializeF k q.2.2)) →
    buildFields env k cls (.dict ces) pa fields = .ok (flds, []) := by
  intro fields
  induction fields with
  | nil =>
    intro flds ces pa hwt _ _ _ _
    cases flds with
    | nil => rfl
    | cons p ps => exact Bool.noConfusion hwt
  | cons f fs ih =>
    intro flds ces pa hwt hall hpa hAll hCfg
    cases flds with
    | nil => exact Bool.noConfusion hwt
    | cons p ps =>
      obtain ⟨n, w⟩ := p
      simp only [wtFieldsAux, Bool.and_eq_true] at hwt
      obtain ⟨⟨hname, hw⟩, hwtail⟩ := hwt
      rw [List.all_cons, Bool.and_eq_true] at hall
      have hn2 : n = f.fname := eq_of_beq hname
      subst hn2
      have hfind := hCfg (f, (f.fname, w))
        (by rw [List.zip_cons_cons]; exact List.mem_cons_self _ _)
      have hCfgT : ∀ q ∈ fs.zip ps, ces.find? (fun p => pyEq p.1 (.str q.1.fname)) =
          some (.str q.1.fname, serializeF k q.2.2) :=
        fun q hq => hCfg q (by rw [List.zip_cons_cons]; exact List.mem_cons_of_mem _ hq)
      obtain ⟨hpaT, hhead⟩ := paOKAux_head env (paOK env k) cls pa f fs hpa
      obtain ⟨hstep, hmiss⟩ := fieldStep_rt env k cls f w ces pa hw hall.1 hhead hAll hfind
      simp only [buildFields, hstep]
      rw [ih ps ces pa hwtail hall.2 hpaT hAll hCfgT]
      simp only [hmiss, Bool.false_eq_true, if_false]

/-- C4 (amended): the round trip holds on serializable schemas.  For a
schema whose top-level fields are flat kinds (scalars, `Literal`,
`Optional` of flat, `list`/`dict` of scalars), non-empty nested records of
recursively the same flat shape, or `list[D]` with `D` a record of flat
fields — and these cover every shape the parser both assembles and can
read back from file data, tuples excluded — assembling an instance,
serializing its field values into the file-config tree (instances as
mappings, tuples as JSON/YAML sequences), and re-resolving with no CLI
input (an all-`None` argparse namespace over the declared leaf paths)
rebuilds the instance field-for-field.  The original claim over every
schema is refuted by `round_trip_breaks_tuple_field`: a tuple-typed field
comes back as a list, which Python compares unequal to the original
tuple. -/
theorem round_trip_on_serializable_schemas (env : Env) (K : Nat) (cls : String)
    (fields : List FieldDesc) (flds : List (String × PyVal))
    (pa : List (String × PyVal)) :
    envFields env cls = some fields →
    wellTypedVal env (K + 1) (.inst cls flds) (.record cls) = true →
    rtTopFields env K fields = true →
    paOK env (K + 1) cls fields pa = true →
    allNone pa = true →
    build_instance env K cls pa (serializeTop (K + 1) cls (.inst cls flds)) =
      .ok (.inst cls flds) := by
  intro hE hwt hrtf hpa hAll
  simp only [wellTypedVal, Bool.and_eq_true] at hwt
  have hwtf := hwt.2
  simp only [hE] at hwtf
  simp only [rtTopFields, Bool.and_eq_true] at hrtf
  simp only [paOK] at hpa
  have hq : pyEq (PyVal.str cls) (PyVal.str cls) = true := by simp [pyEq]
  have hsec : cfgSection (serializeTop (K + 1) cls (.inst cls flds)) cls =
      PyVal.dict (flds.map (fun p => (PyVal.str p.1, serializeF K p.2))) := by
    simp only [serializeTop, cfgSection, cfgGetD, List.find?_cons, hq,
      Option.map_some', Option.getD_some]
    rfl
  simp only [build_instance, hE, hsec]
  have hnames := wtFields_names (wellTypedVal env K) flds fields hwtf
  have hndflds : nodupStr (flds.map Prod.fst) = true := by
    rw [hnames]; exact hrtf.1
  have hCfg : ∀ q ∈ fields.zip flds,
      (flds.map (fun p => (PyVal.str p.1, serializeF K p.2))).find?
        (fun p => pyEq p.1 (.str q.1.fname)) =
      some (.str q.1.fname, serializeF K q.2.2) := by
    intro q hq2
    obtain ⟨fd, nm, vv⟩ := q
    have hzq := wtFields_zip (wellTypedVal env K) fields flds hwtf (fd, (nm, vv)) hq2
    have hmem : (fd.fname, vv) ∈ flds := by
      rw [← hzq.1]
      exact (List.of_mem_zip hq2).2
    exact serialized_find K fd.fname vv flds hndflds hmem
  rw [buildFields_rt env K cls fields flds _ pa hwtf hrtf.2 hpa hAll hCfg]
  simp only [List.isEmpty_nil, if_true]
  exact constructKw_exact env cls fields flds hE hnames hrtf.1

/-- C4 witness: the depth-2 schema OuterD / MidD / InnerD with instance
values x=5, w=7; the serialized tree rebuilds exactly that instance under
an all-`None` namespace over the declared leaf paths. -/
theorem round_trip_on_serializable_schemas_witness :
    envFields envDeep "OuterD" = some [⟨"mid", .record "MidD",
      .inst "MidD" [("inner", .inst "InnerD" [("x", .int 99)]), ("w", .int 2)]⟩] ∧
    wellTypedVal envDeep 4 (.inst "OuterD" [("mid", .inst "MidD"
      [("inner", .inst "InnerD" [("x", .int 5)]), ("w", .int 7)])])
      (.record "OuterD") = true ∧
    rtTopFields envDeep 3 [⟨"mid", .record "MidD",
      .inst "MidD" [("inner", .inst "InnerD" [("x", .int 99)]), ("w", .int 2)]⟩] = true ∧
    paOK envDeep 4 "OuterD" [⟨"mid", .record "MidD",
      .inst "MidD" [("inner", .inst "InnerD" [("x", .int 99)]), ("w", .int 2)]⟩]
      (mkPA (topDeclared envDeep 3 ["OuterD"]) []) = true ∧
    allNone (mkPA (topDeclared envDeep 3 ["OuterD"]) []) = true ∧
    build_instance envDeep 3 "OuterD" (mkPA (topDeclared envDeep 3 ["OuterD"]) [])
      (serializeTop 4 "OuterD" (.inst "OuterD" [("mid", .inst "MidD"
        [("inner", .inst "InnerD" [("x", .int 5)]), ("w", .int 7)])])) =
      .ok (.inst "OuterD" [("mid", .inst "MidD"
        [("inner", .inst "InnerD" [("x", .int 5)]), ("w", .int 7)])]) :=
  ⟨rfl, rfl, rfl, rfl, rfl,
    round_trip_on_serializable_schemas envDeep 3 "OuterD" _ _ _ rfl rfl rfl rfl rfl⟩

/-- C4 counterexample to the claim as stated: for the schema
TupCfg(t: tuple[int, int] = (1, 2)), the parse with no input assembles
`t = (1, 2)`; its file-config serialization (a JSON/YAML sequence, since
those formats have no tuples) re-resolves — through `_resolve_field_value`
taking the file value as-is, `_handle_field_type` passing it through
(elements are not dataclasses), and `_validate_type` accepting a list
where a tuple is expected — to an instance storing the list `[1, 2]`,
which is not field-for-field equal to the original (`(1, 2) != [1, 2]`
in Python). -/
theorem round_trip_breaks_tuple_field :
    build_instance envTup 2 "TupCfg" (mkPA (topDeclared envTup 2 ["TupCfg"]) [])
      (.dict []) = .ok (.inst "TupCfg" [("t", .tuple [.int 1, .int 2])]) ∧
    build_instance envTup 2 "TupCfg" (mkPA (topDeclared envTup 2 ["TupCfg"]) [])
      (serializeTop 2 "TupCfg" (.inst "TupCfg" [("t", .tuple [.int 1, .int 2])]))
      = .ok (.inst "TupCfg" [("t", .list [.int 1, .int 2])]) ∧
    PyVal.inst "TupCfg" [("t", .list [.int 1, .int 2])] ≠
      PyVal.inst "TupCfg" [("t", .tuple [.int 1, .int 2])] :=
  ⟨rfl, rfl, by simp⟩

end DCAP
